import Mathlib

/-!
Verification of the analytics core of `fanren-bili-emo-dashboard`.

A shallow embedding, in Lean 4, of the pure data-transformation layer of
the dashboard (`src/FanrenDashboard.tsx`): episode/table store ingestion,
deterministic color assignment, peak detection, top-K non-overlapping
interval extraction, and the cross-episode distribution aggregator.

Modelling conventions:
* JavaScript numbers are modelled by `ℚ`.  All numeric values the analytics
  layer manipulates come out of `safeNumber`, which coerces any non-finite
  input to a finite fallback, so `NaN`/`Infinity` never flow into the
  algorithms modelled here.
* A parsed CSV/JSON cell (`number | string | null`) is `CellVal`; a missing
  object field (JS `undefined`) is `Option.none` at the lookup site.
* JS objects used as string-keyed dictionaries are association lists
  (`Rec α`) with JS semantics: assignment replaces the value of an existing
  key in place and appends a fresh key at the end; enumeration follows list
  order.  (JS enumerates integer-like keys first; no theorem below depends
  on enumeration order, only on membership.)
* CSV/JSON text parsing is out of scope for the analytics core (the spec
  treats it as an external collaborator), so the ingestion function takes
  the two parsers as explicit function arguments; `none` models a parser
  exception, which propagates out of `ingestFileText` before any state
  update.
* `Array.prototype.sort` (with a consistent comparator) is JS stable sort.
  The output of a stable sort is uniquely determined by the comparator and
  the input order, so it is modelled by `List.insertionSort`, which is
  stable and structurally recursive (hence kernel-computable).
-/

/-- A parsed tabular cell: a JS `number`, `string`, or `null`. -/
inductive CellVal where
  | num (q : ℚ)
  | str (s : String)
  | null
deriving DecidableEq, Repr

/-- A parsed row: a JS object, i.e. an association list from column name to
cell value.  A column absent from the list is JS `undefined`. -/
abbrev Row := List (String × CellVal)

/-- JS property read `r[k]` on a row: first binding wins, `none` = `undefined`. -/
def getCell (r : Row) (k : String) : Option CellVal :=
  (r.find? (fun p => p.1 == k)).map (fun p => p.2)

/-- Strip whitespace from both ends of a char list (JS `trim`). -/
def trimList (l : List Char) : List Char :=
  ((l.dropWhile Char.isWhitespace).reverse.dropWhile Char.isWhitespace).reverse

/-- Simplified `Number(s)` for strings: optional sign, decimal digits with an
optional fractional part, surrounded by whitespace; the empty (or blank)
string is `0`; anything else is `NaN` (`none`).  Exotic JS forms (hex,
exponents) do not occur in this data and are not modelled. -/
def jsStrToNum (s : String) : Option ℚ :=
  let t := trimList s.data
  if t.isEmpty then some 0
  else
    let (sign, t1) : ℚ × List Char :=
      match t with
      | '-' :: rest => (-1, rest)
      | '+' :: rest => (1, rest)
      | _ => (1, t)
    let intPart := t1.takeWhile Char.isDigit
    let rest := t1.dropWhile Char.isDigit
    let (fracPart, rest2) : List Char × List Char :=
      match rest with
      | '.' :: r => (r.takeWhile Char.isDigit, r.dropWhile Char.isDigit)
      | _ => ([], rest)
    if rest2.isEmpty ∧ ¬(intPart.isEmpty ∧ fracPart.isEmpty) then
      let iv : ℚ := intPart.foldl (fun a c => a * 10 + (c.toNat - 48 : ℕ)) 0
      let fv : ℚ := fracPart.foldr (fun c a => (a + (c.toNat - 48 : ℕ)) / 10) 0
      some (sign * (iv + fv))
    else none

/-- `safeNumber(x, fallback)`: a finite number stays, a string goes through
`Number(…)` (`NaN` → fallback), `null` is `Number(null) = 0`, and a missing
value (`undefined`) is `NaN` → fallback. -/
def safeNumber (v : Option CellVal) (fallback : ℚ := 0) : ℚ :=
  match v with
  | some (.num q) => q
  | some (.str s) => (jsStrToNum s).getD fallback
  | some .null => 0
  | none => fallback

/-- Is a cell value nullish (`null`; `undefined` is `none` at the call site)? -/
def isNullish (v : Option CellVal) : Bool :=
  match v with
  | some .null => true
  | none => true
  | some _ => false

/-- JS `a ?? b` on option-of-cell values. -/
def nullish (a b : Option CellVal) : Option CellVal :=
  if isNullish a then b else a

/-- JS `String(v)` restricted to the values that reach it here: strings pass
through, integers print in decimal; non-integral numbers are approximated by
`ℚ`'s printer (the dashboard only ever stringifies integral episode ids). -/
def cellToString (v : Option CellVal) : String :=
  match v with
  | some (.str s) => s
  | some (.num q) => if q.den = 1 then toString q.num else toString q
  | some .null => "null"
  | none => "undefined"

/-! ## JS string-keyed objects as association lists -/

/-- A JS object used as a dictionary. -/
abbrev Rec (α : Type) := List (String × α)

/-- JS property read `m[k]`. -/
def recGet {α : Type} (m : Rec α) (k : String) : Option α :=
  (m.find? (fun p => p.1 == k)).map (fun p => p.2)

/-- JS property write `m[k] = v` (also what `{ ...m, [k]: v }` produces):
an existing key keeps its position and gets the new value, a fresh key is
appended at the end. -/
def recSet {α : Type} (m : Rec α) (k : String) (v : α) : Rec α :=
  if m.any (fun p => p.1 == k) then
    m.map (fun p => if p.1 == k then (k, v) else p)
  else m ++ [(k, v)]

/-- `Object.keys`. -/
def recKeys {α : Type} (m : Rec α) : List String := m.map (fun p => p.1)

/-! ## String helpers mirroring the JS ones used for filename classification -/

/-- Is `pat` a prefix of `l`? -/
def isPrefixList : List Char → List Char → Bool
  | [], _ => true
  | _ :: _, [] => false
  | a :: as, b :: bs => a == b && isPrefixList as bs

/-- `String.prototype.includes` on char lists. -/
def includesList (pat : List Char) : List Char → Bool
  | [] => isPrefixList pat []
  | c :: rest => isPrefixList pat (c :: rest) || includesList pat rest

/-- `s.includes(pat)`. -/
def strIncludes (s pat : String) : Bool := includesList pat.data s.data

/-- `s.endsWith(pat)`. -/
def strEndsWith (s pat : String) : Bool :=
  isPrefixList pat.data.reverse s.data.reverse

/-- `s.toLowerCase()` (ASCII case mapping, which covers the filenames and
keys this dashboard manipulates). -/
def strToLower (s : String) : String :=
  String.mk (s.data.map Char.toLower)

example : strIncludes "abc_episode_stats.csv" "episode_stats" = true := by decide
example : strIncludes "abc.csv" "episode_stats" = false := by decide
example : strEndsWith "a.csv" ".csv" = true := by decide
example : strToLower "A_B.Csv" = "a_b.csv" := by decide

/-! ## Filename classification (`EP_RE`, `parseEpisodeFromName`, `detectTableKey`) -/

/-- Maximal run of leading decimal digits. -/
def takeDigits : List Char → List Char
  | [] => []
  | c :: rest => if c.isDigit then c :: takeDigits rest else []

/-- First match of `/ep(\d+)/i`: scan left to right for `e`/`E` followed by
`p`/`P` followed by at least one digit; capture the maximal digit run. -/
def epMatch : List Char → Option String
  | [] => none
  | c :: rest =>
    if c.toLower == 'e' then
      match rest with
      | [] => none
      | p :: rest2 =>
        if p.toLower == 'p' then
          let ds := takeDigits rest2
          if ds.isEmpty then epMatch rest else some (String.mk ds)
        else epMatch rest
    else epMatch rest

/-- Is the char one of the separators `-`/`_`? -/
def isSep (c : Char) : Bool := c == '-' || c == '_'

/-- Matching of `(\d{2,3})(?:[-_])` at a fixed position, greedy (3 digits
first, backtracking to 2). -/
def digitRunMatch : List Char → Option String
  | d1 :: d2 :: d3 :: c4 :: _ =>
    if d1.isDigit && d2.isDigit && d3.isDigit && isSep c4 then
      some (String.mk [d1, d2, d3])
    else if d1.isDigit && d2.isDigit && isSep d3 then some (String.mk [d1, d2])
    else none
  | [d1, d2, d3] =>
    if d1.isDigit && d2.isDigit && isSep d3 then some (String.mk [d1, d2]) else none
  | _ => none

/-- Scan for the `[-_]`-anchored alternative of
`/(?:^|[-_])(\d{2,3})(?:[-_])/` at every position. -/
def fallbackScan : List Char → Option String
  | [] => none
  | c :: rest =>
    if isSep c then
      match digitRunMatch rest with
      | some r => some r
      | none => fallbackScan rest
    else fallbackScan rest

/-- First match of `/(?:^|[-_])(\d{2,3})(?:[-_])/`: the `^` alternative at
position 0, then the separator-anchored alternative at every position. -/
def fallbackMatch (l : List Char) : Option String :=
  match digitRunMatch l with
  | some r => some r
  | none => fallbackScan l

/-- `parseEpisodeFromName`: `ep(\d+)` case-insensitively, else a 2–3 digit
run bounded by separators. -/
def parseEpisodeFromName (name : String) : Option String :=
  match epMatch name.data with
  | some ep => some ep
  | none => fallbackMatch name.data

/-- Result of `detectTableKey`: a table-kind key plus the episode id
extracted from the filename, when present. -/
structure Detected where
  key : String
  ep : Option String
deriving DecidableEq, Repr

/-- One arm of the classification chain: if this pattern matches, classify
here; otherwise fall through to the later arms (source order). -/
def detectArm (lower : String) (pat : String) (key : String) (ep : Option String)
    (fallback : Option Detected) : Option Detected :=
  if strIncludes lower pat && strEndsWith lower ".csv" then some ⟨key, ep⟩ else fallback

/-- `detectTableKey`: classify a filename against the fixed table-kind
enumeration (case-insensitive substring + extension match, in source
order), pairing it with the extracted episode id. -/
def detectTableKey (filename : String) : Option Detected :=
  let lower := strToLower filename
  let ep := parseEpisodeFromName lower
  if strIncludes lower "episode_stats" && strEndsWith lower ".csv" then
    some ⟨"episode_stats", none⟩
  else if strIncludes lower "danmaku_basic_stats" && strEndsWith lower ".json" then
    some ⟨"danmaku_basic_stats", ep⟩
  else
    detectArm lower "danmaku_emo_dist" "danmaku_emo_dist" ep <|
    detectArm lower "comment_root_emo_dist" "comment_root_emo_dist" ep <|
    detectArm lower "comment_reply_emo_dist" "comment_reply_emo_dist" ep <|
    detectArm lower "danmaku_model_emo_dist" "danmaku_model_emo_dist" ep <|
    detectArm lower "comment_root_model_emo_dist" "comment_root_model_emo_dist" ep <|
    detectArm lower "comment_reply_model_emo_dist" "comment_reply_model_emo_dist" ep <|
    detectArm lower "model_usage" "model_usage" ep <|
    detectArm lower "danmaku_func_dist" "danmaku_func_dist" ep <|
    detectArm lower "comment_func_dist" "comment_func_dist" ep <|
    detectArm lower "comment_root_func_dist" "comment_root_func_dist" ep <|
    detectArm lower "comment_reply_func_dist" "comment_reply_func_dist" ep <|
    detectArm lower "danmaku_minute_emo_curve" "danmaku_minute_emo_curve" ep <|
    detectArm lower "danmaku_minute_func_curve" "danmaku_minute_func_curve" ep <|
    detectArm lower "danmaku_burst_2s" "danmaku_burst_2s" ep <|
    detectArm lower "top_terms_danmaku" "top_terms_danmaku" ep <|
    detectArm lower "top_terms_comment" "top_terms_comment" ep <|
    detectArm lower "cleaning_report" "cleaning_report" ep <|
    none

example : detectTableKey "danmaku_func_dist_ep12.csv" = some ⟨"danmaku_func_dist", some "12"⟩ := by decide
example : detectTableKey "episode_stats.csv" = some ⟨"episode_stats", none⟩ := by decide
example : detectTableKey "readme.txt" = none := by decide
example : parseEpisodeFromName "x-012-y" = some "012" := by decide

/-! ## Episode/Table store (`Store`, `mergeEpisodes`, `ingestFileText`) -/

/-- Metadata of an uploaded file (`{ name, size, type }`), recorded by the
upload handler; `ingestFileText` never touches it. -/
structure FileMeta where
  name : String
  size : ℕ
  type : String
deriving DecidableEq, Repr

/-- A per-episode set of named tables (`TableMap`). -/
abbrev TableMap := Rec (List Row)

/-- The aggregate root. -/
structure Store where
  episodes : List String
  episodeStats : Option (List Row)
  basicStatsByEp : Rec Row
  tablesByEp : Rec TableMap
  loadedFiles : List FileMeta

/-- The initial store. -/
def initStore : Store :=
  { episodes := [], episodeStats := none, basicStatsByEp := [], tablesByEp := [],
    loadedFiles := [] }

/-- Insert into a JS `Set`: dedups, keeps first-insertion order. -/
def insertIfAbsent (acc : List String) (e : String) : List String :=
  if e ∈ acc then acc else acc ++ [e]

/-- `String(r.episode_id ?? r.episode ?? "")` for one global-stats row. -/
def statsEpisode (r : Row) : String :=
  cellToString (nullish (getCell r "episode_id") (nullish (getCell r "episode") (some (.str ""))))

/-- Sort comparator of `mergeEpisodes`: `safeNumber(a) - safeNumber(b)`. -/
def epLe (a b : String) : Prop :=
  safeNumber (some (.str a)) ≤ safeNumber (some (.str b))

instance (a b : String) : Decidable (epLe a b) := by unfold epLe; infer_instance

/-- `mergeEpisodes`: the derived episode set — keys of the per-episode table
map, keys of the basic-stats map, and the non-empty episode ids embedded in
the global scalar-stats rows — sorted numerically ascending (stable). -/
def mergeEpisodes (tablesByEp : Rec TableMap) (basicStatsByEp : Rec Row)
    (episodeStats : Option (List Row)) : List String :=
  let s1 := (recKeys tablesByEp).foldl insertIfAbsent []
  let s2 := (recKeys basicStatsByEp).foldl insertIfAbsent s1
  let s3 := ((episodeStats.getD []).map statsEpisode).foldl
    (fun acc e => if e = "" then acc else insertIfAbsent acc e) s2
  List.insertionSort epLe s3

/-- The two external parsers (`parseCsv` via PapaParse, `JSON.parse`); the
analytics core consumes them as black boxes (spec §1).  `none` models a
parse exception. -/
structure ParseFns where
  csv : String → Option (List Row)
  json : String → Option Row

/-- `ingestFileText`: classify the filename, parse the text, and update the
store.  A parse exception (`none`) propagates before any state update, so
the store is returned unchanged in that case, as in the caller's
`try`/`catch`. -/
def ingestFileText (P : ParseFns) (s : Store) (name text : String) : Store :=
  match detectTableKey name with
  | none => s
  | some d =>
    if d.key = "episode_stats" then
      match P.csv text with
      | none => s
      | some rows =>
        let eps := mergeEpisodes s.tablesByEp s.basicStatsByEp (some rows)
        { s with episodeStats := some rows, episodes := eps }
    else if d.key = "danmaku_basic_stats" then
      match d.ep with
      | none => s
      | some ep =>
        match P.json text with
        | none => s
        | some obj =>
          let basicStatsByEp := recSet s.basicStatsByEp ep obj
          let episodes := mergeEpisodes s.tablesByEp basicStatsByEp s.episodeStats
          { s with basicStatsByEp := basicStatsByEp, episodes := episodes }
    else
      match d.ep with
      | none => s
      | some ep =>
        match P.csv text with
        | none => s
        | some rows =>
          let cur := (recGet s.tablesByEp ep).getD []
          let nextTablesByEp := recSet s.tablesByEp ep (recSet cur d.key rows)
          let episodes := mergeEpisodes nextTablesByEp s.basicStatsByEp s.episodeStats
          { s with tablesByEp := nextTablesByEp, episodes := episodes }

/-- A whole session: fold a sequence of `(filename, text)` ingests from the
initial store. -/
def ingestAll (P : ParseFns) (files : List (String × String)) : Store :=
  files.foldl (fun s f => ingestFileText P s f.1 f.2) initStore

/-! ## Deterministic color assigner (`fnv1aHash32`, `hslToHex`, `colorForKey`) -/

/-- The fixed emotion display order `EMO_ORDER`. -/
def EMO_ORDER : List String := ["touching", "laugh", "praise", "neg", "self_mock", "other"]

/-- The hand-curated closed-vocabulary color table `EMO_COLOR_MAP`. -/
def EMO_COLOR_MAP : Rec String :=
  [("touching", "#2563eb"), ("laugh", "#16a34a"), ("praise", "#ea580c"),
   ("neg", "#dc2626"), ("self_mock", "#7c3aed"), ("other", "#0891b2"),
   ("pos", "#0ea5e9"), ("neu", "#64748b")]

/-- JS truncation toward zero (`ToIntegerOrInfinity` on a finite value). -/
def jsTrunc (q : ℚ) : ℤ := if 0 ≤ q then ⌊q⌋ else ⌈q⌉

/-- JS `%` on numbers: remainder with the sign of the dividend. -/
def jsFmod (a b : ℚ) : ℚ := a - b * (jsTrunc (a / b) : ℚ)

/-- JS `Math.round`: floor of `x + 1/2` (ties go up). -/
def jsRound (q : ℚ) : ℤ := ⌊q + 1 / 2⌋

/-- Lowercase hex digit. -/
def hexDigitChar (n : ℕ) : Char := if n < 10 then Char.ofNat (48 + n) else Char.ofNat (87 + n)

/-- Hex digits of `n` (fuel-recursive; fuel `n + 1` always suffices). -/
def natToHexAux : ℕ → ℕ → List Char
  | 0, _ => []
  | fuel + 1, n =>
    if n < 16 then [hexDigitChar n] else natToHexAux fuel (n / 16) ++ [hexDigitChar (n % 16)]

/-- JS `n.toString(16)` for an integer value. -/
def intToHex (n : ℤ) : List Char :=
  if n < 0 then '-' :: natToHexAux (n.natAbs + 1) n.natAbs else natToHexAux (n.toNat + 1) n.toNat

/-- JS `.padStart(2, "0")`. -/
def padStart2 (l : List Char) : List Char := if l.length < 2 then '0' :: l else l

/-- The `toHex` closure inside `hslToHex`: `Math.round((v + m) * 255)` in hex,
two digits. -/
def toHexByte (v m : ℚ) : List Char := padStart2 (intToHex (jsRound ((v + m) * 255)))

/-- `hslToHex`: the standard piecewise HSL→RGB conversion used by the code,
producing an `#rrggbb` string. -/
def hslToHex (h s0 l0 : ℚ) : String :=
  let s := s0 / 100
  let l := l0 / 100
  let c := (1 - |2 * l - 1|) * s
  let x := c * (1 - |jsFmod (h / 60) 2 - 1|)
  let m := l - c / 2
  let rgb : ℚ × ℚ × ℚ :=
    if 0 ≤ h ∧ h < 60 then (c, x, 0)
    else if 60 ≤ h ∧ h < 120 then (x, c, 0)
    else if 120 ≤ h ∧ h < 180 then (0, c, x)
    else if 180 ≤ h ∧ h < 240 then (0, x, c)
    else if 240 ≤ h ∧ h < 300 then (x, 0, c)
    else (c, 0, x)
  String.mk ('#' :: (toHexByte rgb.1 m ++ toHexByte rgb.2.1 m ++ toHexByte rgb.2.2 m))

/-- The UTF-16 code units of a character (`charCodeAt` iterates these). -/
def utf16Units (c : Char) : List ℕ :=
  let n := c.toNat
  if n < 65536 then [n] else [55296 + (n - 65536) / 1024, 56320 + (n - 65536) % 1024]

/-- All UTF-16 code units of a string, in order. -/
def strCodeUnits (s : String) : List ℕ :=
  s.data.foldr (fun c acc => utf16Units c ++ acc) []

/-- One FNV-1a accumulation step on 32 bits.  In the source the accumulator
lives in a JS number and is built with `^` (ToInt32) and `Math.imul`; both
agree bit-for-bit with arithmetic mod `2^32`, and the final `>>> 0`
reinterprets the bits as this unsigned value. -/
def fnv1aStep (h b : ℕ) : ℕ := ((h ^^^ b) * 16777619) % 4294967296

/-- `fnv1aHash32`: FNV-1a over the string's UTF-16 code units
(`charCodeAt`), offset basis 2166136261, prime 16777619. -/
def fnv1aHash32 (s : String) : ℕ := (strCodeUnits s).foldl fnv1aStep 2166136261

/-- `stableColorFromKey`: hue from the hash mod 360, one of two lightness
values from a secondary hash, fixed saturation 82. -/
def stableColorFromKey (key : String) : String :=
  let h : ℕ := fnv1aHash32 key % 360
  let l : ℚ := if fnv1aHash32 (key ++ "_l") % 2 = 0 then 45 else 58
  hslToHex (h : ℚ) 82 l

/-- The two color modes of `colorForKey`. -/
inductive Mode where
  | emo
  | func
deriving DecidableEq, Repr

/-- `colorForKey`: the curated table for closed-vocabulary emotion keys, the
stable hash color for open-vocabulary keys, `#334155` otherwise. -/
def colorForKey (key : String) (mode : Mode) : String :=
  match mode with
  | .emo =>
    match recGet EMO_COLOR_MAP key with
    | some c => c
    | none => "#334155"
  | .func => stableColorFromKey key

/-- The spec's reference byte sequence for a key: its UTF-8 bytes
(spec §4.1 hashes "the key's bytes"). -/
def utf8EncodeCharNat (c : Char) : List ℕ :=
  let n := c.toNat
  if n < 128 then [n]
  else if n < 2048 then [192 + n / 64, 128 + n % 64]
  else if n < 65536 then [224 + n / 4096, 128 + (n / 64) % 64, 128 + n % 64]
  else [240 + n / 262144, 128 + (n / 4096) % 64, 128 + (n / 64) % 64, 128 + n % 64]

/-- All UTF-8 bytes of a string, in order. -/
def utf8Bytes (s : String) : List ℕ :=
  s.data.foldr (fun c acc => utf8EncodeCharNat c ++ acc) []

/-- Reference definition following the spec's words (§4.1): a 32-bit FNV-1a
hash accumulated over the key's bytes from the fixed offset basis. -/
def specFnv1aHash32 (s : String) : ℕ := (utf8Bytes s).foldl fnv1aStep 2166136261

/-- Reference definition following the spec's words (§4.1): hue = hash mod
360, a secondary hash bit selecting one of the two fixed lightness values,
fixed saturation, converted by the standard piecewise HSL→RGB formula. -/
def specStableColorFromKey (key : String) : String :=
  let h : ℕ := specFnv1aHash32 key % 360
  let l : ℚ := if specFnv1aHash32 (key ++ "_l") % 2 = 0 then 45 else 58
  hslToHex (h : ℚ) 82 l

/-! ## Interval & peak analytics (`topKIntervals`, `computePeak`) -/

/-- `safeNumber(r.minute)`. -/
def rowMinute (r : Row) : ℚ := safeNumber (getCell r "minute")

/-- `safeNumber(r[seriesKey])`. -/
def seriesVal (key : String) (r : Row) : ℚ := safeNumber (getCell r key)

/-- Comparator of the minute-ascending sort in `topKIntervals`. -/
def minuteLe (a b : Row) : Prop := rowMinute a ≤ rowMinute b

instance (a b : Row) : Decidable (minuteLe a b) := by unfold minuteLe; infer_instance

/-- One candidate window: anchor index `i`, last index `j`, cumulative
score, and the anchor/last minute values (`start`/`end` in the source;
`end` is a Lean keyword, hence `cstop`). -/
structure Cand where
  ci : ℕ
  cj : ℕ
  score : ℚ
  cstart : ℚ
  cstop : ℚ
deriving DecidableEq, Repr

/-- A selected interval (`{ start, end, score }` in the source). -/
structure Ival where
  istart : ℚ
  istop : ℚ
  iscore : ℚ
deriving DecidableEq, Repr

/-- The prefix-sum array `ps` (`ps[0] = 0`, `ps[i+1] = ps[i] + values[i]`). -/
def prefixSums (acc : ℚ) : List ℚ → List ℚ
  | [] => [acc]
  | v :: rest => acc :: prefixSums (acc + v) rest

/-- The inner `while (j + 1 < n && minutes[j + 1] <= endMinute) j++` loop;
fuel-recursive, the callers pass fuel `n`, which always suffices. -/
def extendJ (minutes : List ℚ) (endM : ℚ) : ℕ → ℕ → ℕ
  | 0, j => j
  | fuel + 1, j =>
    if j + 1 < minutes.length ∧ minutes.getD (j + 1) 0 ≤ endM then
      extendJ minutes endM fuel (j + 1)
    else j

/-- The candidate anchored at row index `i`. -/
def mkCand (minutes ps : List ℚ) (w : ℚ) (i : ℕ) : Cand :=
  let endMinute := minutes.getD i 0 + (w - 1)
  let j := extendJ minutes endMinute minutes.length i
  { ci := i, cj := j, score := ps.getD (j + 1) 0 - ps.getD i 0,
    cstart := minutes.getD i 0, cstop := minutes.getD j 0 }

/-- `overlaps`: inclusive overlap of two index ranges. -/
def rangesOverlap (a b : ℕ × ℕ) : Bool := decide (max a.1 b.1 ≤ min a.2 b.2)

/-- The greedy selection loop over the score-sorted candidates. -/
def greedyGo (kk : ℚ) : List Cand → List Ival → List (ℕ × ℕ) → List Ival
  | [], picked, _ => picked
  | c :: rest, picked, used =>
    if kk ≤ (picked.length : ℚ) then picked
    else if used.any (fun u => rangesOverlap u (c.ci, c.cj)) then greedyGo kk rest picked used
    else
      greedyGo kk rest (picked ++ [{ istart := c.cstart, istop := c.cstop, iscore := c.score }])
        (used ++ [(c.ci, c.cj)])

/-- Comparator of the score-descending candidate sort. -/
def scoreGe (a b : Cand) : Prop := b.score ≤ a.score

instance (a b : Cand) : Decidable (scoreGe a b) := by unfold scoreGe; infer_instance

/-- Comparator of the final start-ascending interval sort. -/
def startLe (a b : Ival) : Prop := a.istart ≤ b.istart

instance (a b : Ival) : Decidable (startLe a b) := by unfold startLe; infer_instance

/-- `topKIntervals(curveRows, seriesKey, windowSize, k)`: sort by minute,
build one window candidate per row via prefix sums, sort candidates by
score descending, greedily keep up to `k` with pairwise non-overlapping
(inclusive) index ranges, and return them sorted by start minute. -/
def topKIntervals (curveRows : List Row) (seriesKey : String) (windowSize k : ℚ) : List Ival :=
  if curveRows.isEmpty then []
  else
    let rows := List.insertionSort minuteLe curveRows
    let minutes := rows.map rowMinute
    let values := rows.map (seriesVal seriesKey)
    let n := rows.length
    let w : ℚ := max 1 (min 20 windowSize)
    let kk : ℚ := max 1 (min 5 k)
    let ps := prefixSums 0 values
    let candidates := (List.range n).map (mkCand minutes ps w)
    let sortedC := List.insertionSort scoreGe candidates
    let picked := greedyGo kk sortedC [] []
    List.insertionSort startLe picked

/-- The scan loop of `computePeak`: running best `(minute, value)`;
`none` is the initial `bestMinute = null` / `bestVal = -Infinity` state
(every actual value is finite, hence above `-Infinity`). -/
def peakLoop (key : String) : List Row → Option (ℚ × ℚ) → Option (ℚ × ℚ)
  | [], best => best
  | r :: rest, best =>
    match best with
    | none => peakLoop key rest (some (rowMinute r, seriesVal key r))
    | some (m0, v0) =>
      if v0 < seriesVal key r then peakLoop key rest (some (rowMinute r, seriesVal key r))
      else peakLoop key rest (some (m0, v0))

/-- `computePeak`: the maximum of `seriesKey` over the rows in the given
order (strict improvement only, so the first row attaining the maximum
wins), `null` if the series is empty or the maximum is negative. -/
def computePeak (curveRows : List Row) (key : String) : Option (ℚ × ℚ) :=
  match peakLoop key curveRows none with
  | none => none
  | some (m, v) => if v < 0 then none else some (m, v)

/-! ## Distribution aggregator (`distCompareData`) -/

/-- The seven comparison kinds (`DistKind`). -/
inductive DistKind where
  | emo_danmaku
  | emo_comment_root
  | emo_comment_reply
  | func_danmaku
  | func_comment_all
  | func_comment_root
  | func_comment_reply
deriving DecidableEq, Repr

/-- `distKind.startsWith("emo_")`. -/
def isEmoKind : DistKind → Bool
  | .emo_danmaku | .emo_comment_root | .emo_comment_reply => true
  | _ => false

/-- The closed-vocabulary table key for an emotion kind. -/
def distEmoTableKey : DistKind → String
  | .emo_danmaku => "danmaku_emo_dist"
  | .emo_comment_root => "comment_root_emo_dist"
  | _ => "comment_reply_emo_dist"

/-- The open-vocabulary table key for a function kind. -/
def distFuncTableKey : DistKind → String
  | .func_danmaku => "danmaku_func_dist"
  | .func_comment_all => "comment_func_dist"
  | .func_comment_root => "comment_root_func_dist"
  | _ => "comment_reply_func_dist"

/-- `store.tablesByEp[ep]?.[tableKey] ?? []`. -/
def epTable (tablesByEp : Rec TableMap) (ep tableKey : String) : List Row :=
  ((recGet tablesByEp ep).bind (fun t => recGet t tableKey)).getD []

/-- `String(r[field] ?? r.label ?? "other")`: the categorical label of a
distribution row. -/
def rowTag (field : String) (r : Row) : String :=
  cellToString (nullish (getCell r field) (nullish (getCell r "label") (some (.str "other"))))

/-- `safeNumber(r.ratio)`. -/
def rowRatio (r : Row) : ℚ := safeNumber (getCell r "ratio")

/-- The per-episode label→ratio map `m` (later rows overwrite earlier ones
with the same label). -/
def distRatioMap (field : String) (dist : List Row) : Rec ℚ :=
  dist.foldl (fun m r => recSet m (rowTag field r) (rowRatio r)) []

/-- JS `row[k] ?? 0` read back as a number inside the `sumTop` reduce; every
`k` it is applied to was just assigned a number, so the string cases are
unreachable there. -/
def cellNumOr0 : Option CellVal → ℚ
  | some (.num q) => q
  | some (.str _) => 0
  | some .null => 0
  | none => 0

/-- The result of `distCompareData` (`label` and `colors` are carried for
fidelity; the claims are about `rows` and `keys`). -/
structure DistResult where
  rows : List Row
  keys : List String
  label : String
  colors : Rec String

/-- The output row of the closed-vocabulary branch for one episode. -/
def emoRowFor (tablesByEp : Rec TableMap) (tableKey : String) (keys : List String)
    (ep : String) : Row :=
  let dist := epTable tablesByEp ep tableKey
  let m := distRatioMap "emo" dist
  let base : Row := [("episode", .str ("第" ++ ep ++ "集")), ("ep", .str ep)]
  keys.foldl (fun row k => recSet row k (.num ((recGet m k).getD 0))) base

/-- The output row of the open-vocabulary branch for one episode: the top
categories first, then `other = max(0, 1 - sumTop)`. -/
def funcRowFor (tablesByEp : Rec TableMap) (funcKey : String) (topKeys : List String)
    (ep : String) : Row :=
  let dist := epTable tablesByEp ep funcKey
  let m := distRatioMap "func" dist
  let base : Row := [("episode", .str ("第" ++ ep ++ "集")), ("ep", .str ep)]
  let row := topKeys.foldl (fun row k => recSet row k (.num ((recGet m k).getD 0))) base
  let sumTop := topKeys.foldl (fun s k => s + cellNumOr0 (getCell row k)) 0
  recSet row "other" (.num (max 0 (1 - sumTop)))

/-- Comparator of the score-descending tag sort (`(a, b) => b[1] - a[1]`). -/
def tagScoreGe (a b : String × ℚ) : Prop := b.2 ≤ a.2

instance (a b : String × ℚ) : Decidable (tagScoreGe a b) := by unfold tagScoreGe; infer_instance

/-- `funcMean`: for every tag, the list of its observed ratios across the
selected episodes (in episode, then row order). -/
def funcMeanMap (tablesByEp : Rec TableMap) (funcKey : String) (eps : List String) :
    Rec (List ℚ) :=
  eps.foldl
    (fun fm ep =>
      (epTable tablesByEp ep funcKey).foldl
        (fun fm r =>
          let f := rowTag "func" r
          recSet fm f (((recGet fm f).getD []) ++ [rowRatio r]))
        fm)
    []

/-- `Math.max(3, Math.min(12, distStackTopN))` as a slice length. -/
def clampTopKeys (topN : ℚ) : ℕ := (jsTrunc (max 3 (min 12 topN))).toNat

/-- The empty "no data" result. -/
def emptyDistResult : DistResult := { rows := [], keys := [], label := "", colors := [] }

/-- `distCompareData` (the `useMemo` body): the cross-episode distribution
comparison table.  Inputs are the memo's data dependencies: the selected
episodes, the comparison kind, the per-episode table map, and the stack
top-N bound. -/
def distCompareData (tablesByEp : Rec TableMap) (distCompareEps : List String)
    (distKind : DistKind) (distStackTopN : ℚ) : DistResult :=
  if distCompareEps.isEmpty then emptyDistResult
  else if isEmoKind distKind then
    let tableKey := distEmoTableKey distKind
    let keys := EMO_ORDER
    let hasAny := distCompareEps.any (fun ep => (epTable tablesByEp ep tableKey).length > 0)
    if ¬hasAny then emptyDistResult
    else
      let rows := distCompareEps.map (emoRowFor tablesByEp tableKey keys)
      let label :=
        match distKind with
        | .emo_danmaku => "弹幕情绪分布（堆叠）"
        | .emo_comment_root => "根评论情绪分布（堆叠）"
        | _ => "回复评论情绪分布（堆叠）"
      { rows := rows, keys := keys, label := label, colors := EMO_COLOR_MAP }
  else
    let funcKey := distFuncTableKey distKind
    let hasAny := distCompareEps.any (fun ep => (epTable tablesByEp ep funcKey).length > 0)
    if ¬hasAny then emptyDistResult
    else
      let funcScores :=
        (funcMeanMap tablesByEp funcKey distCompareEps).map
          (fun p => (p.1, p.2.foldl (· + ·) 0 / max 1 (p.2.length : ℚ)))
      let sorted := List.insertionSort tagScoreGe funcScores
      let topKeys := (sorted.take (clampTopKeys distStackTopN)).map (fun p => p.1)
      let keys := topKeys ++ ["other"]
      let colors := keys.foldl
        (fun c k =>
          recSet c k (if k == "other" then "#94a3b8" else stableColorFromKey ("func_" ++ k)))
        []
      let rows := distCompareEps.map (funcRowFor tablesByEp funcKey topKeys)
      let label :=
        match distKind with
        | .func_danmaku => "弹幕功能分布（TopN + other）"
        | .func_comment_all => "评论功能分布（总体）"
        | .func_comment_root => "评论功能分布（根评）"
        | _ => "评论功能分布（回复）"
      { rows := rows, keys := keys, label := label, colors := colors }

/-! ## Derived notions used in the statements -/

/-- Sum of the numeric readings of a row at the given keys. -/
def rowKeySum (ks : List String) (row : Row) : ℚ :=
  (ks.map (fun k => safeNumber (getCell row k))).sum

/-- The non-empty episode ids embedded in the global scalar-stats table. -/
def statsEpisodesOf (es : Option (List Row)) : List String :=
  ((es.getD []).map statsEpisode).filter (fun e => e != "")

/-- The store's episode list is exactly the derived union of
`mergeEpisodes`; every reachable store satisfies it. -/
def EpisodesInv (s : Store) : Prop :=
  s.episodes = mergeEpisodes s.tablesByEp s.basicStatsByEp s.episodeStats

/-- The two-episode function-distribution input of spec §8.9: episode "1"
has `{greet: 0.4, spoiler: 0.3, other_tag: 0.3}` and episode "2" has
`{greet: 0.1, spoiler: 0.5, hype: 0.4}`. -/
def specScenarioTables : Rec TableMap :=
  [("1", [("danmaku_func_dist",
    [[("func", CellVal.str "greet"), ("ratio", CellVal.num (4/10))],
     [("func", CellVal.str "spoiler"), ("ratio", CellVal.num (3/10))],
     [("func", CellVal.str "other_tag"), ("ratio", CellVal.num (3/10))]])]),
   ("2", [("danmaku_func_dist",
    [[("func", CellVal.str "greet"), ("ratio", CellVal.num (1/10))],
     [("func", CellVal.str "spoiler"), ("ratio", CellVal.num (5/10))],
     [("func", CellVal.str "hype"), ("ratio", CellVal.num (4/10))]])])]

/-- A minimal well-formed single-episode function table (tags `a`, `b` with
ratios one half each) used to witness the aggregator bounds. -/
def oneEpisodeFuncTables : Rec TableMap :=
  [("1", [("danmaku_func_dist",
    [[("func", CellVal.str "a"), ("ratio", CellVal.num (1/2))],
     [("func", CellVal.str "b"), ("ratio", CellVal.num (1/2))]])])]

/-- An adversarial two-episode function table: episode "1" has ratios
`{a: 2, b: -1}` (summing to 1), episode "2" has `{c: 0.5, d: 0.5}`;
with four distinct tags and `topN = 2` (clamped to 3), tag `b` ranks last
and is excluded from the named categories. -/
def adversarialFuncTables : Rec TableMap :=
  [("1", [("danmaku_func_dist",
    [[("func", CellVal.str "a"), ("ratio", CellVal.num 2)],
     [("func", CellVal.str "b"), ("ratio", CellVal.num (-1))]])]),
   ("2", [("danmaku_func_dist",
    [[("func", CellVal.str "c"), ("ratio", CellVal.num (1/2))],
     [("func", CellVal.str "d"), ("ratio", CellVal.num (1/2))]])])]

/-! ## Association-list lemmas -/

theorem find?_map_replace {α : Type} (k : String) (v : α) (m : Rec α) :
    (m.map (fun p => if p.1 == k then (k, v) else p)).find? (fun p => p.1 == k) =
      if m.any (fun p => p.1 == k) then some (k, v) else none := by
  induction m with
  | nil => rfl
  | cons p rest ih =>
    by_cases h : p.1 = k
    · rw [List.map_cons, if_pos (by simpa using h), List.find?_cons_of_pos _ (by simp)]
      rw [if_pos (by simp [List.any_cons, h])]
    · rw [List.map_cons, if_neg (by simpa using h),
        List.find?_cons_of_neg _ (by simpa using h), ih, List.any_cons]
      rw [show (p.1 == k) = false by simpa using h, Bool.false_or]

theorem find?_map_replace_ne {α : Type} (k k' : String) (v : α) (h : k' ≠ k) (m : Rec α) :
    (m.map (fun p => if p.1 == k then (k, v) else p)).find? (fun p => p.1 == k') =
      m.find? (fun p => p.1 == k') := by
  induction m with
  | nil => rfl
  | cons p rest ih =>
    by_cases hp : p.1 = k
    · rw [List.map_cons, if_pos (by simpa using hp),
        List.find?_cons_of_neg _ (by simpa using Ne.symm h),
        List.find?_cons_of_neg _ (by simp [hp]; exact Ne.symm h), ih]
    · rw [List.map_cons, if_neg (by simpa using hp)]
      by_cases hq : p.1 = k'
      · rw [List.find?_cons_of_pos _ (by simpa using hq),
          List.find?_cons_of_pos _ (by simpa using hq)]
      · rw [List.find?_cons_of_neg _ (by simpa using hq),
          List.find?_cons_of_neg _ (by simpa using hq), ih]

theorem not_any_find?_eq_none {α : Type} (m : Rec α) (k : String)
    (hm : ¬m.any (fun p => p.1 == k) = true) :
    m.find? (fun p => p.1 == k) = none := by
  rw [List.find?_eq_none]
  intro p hp hc
  exact hm (List.any_eq_true.mpr ⟨p, hp, hc⟩)

theorem recGet_recSet_self {α : Type} (m : Rec α) (k : String) (v : α) :
    recGet (recSet m k v) k = some v := by
  unfold recGet recSet
  by_cases h : m.any (fun p => p.1 == k)
  · rw [if_pos h, find?_map_replace, if_pos h]; rfl
  · rw [if_neg h, List.find?_append, not_any_find?_eq_none m k h]
    simp [List.find?]

theorem recGet_recSet_ne {α : Type} (m : Rec α) (k k' : String) (v : α) (h : k' ≠ k) :
    recGet (recSet m k v) k' = recGet m k' := by
  unfold recGet recSet
  by_cases hm : m.any (fun p => p.1 == k)
  · rw [if_pos hm, find?_map_replace_ne k k' v h]
  · rw [if_neg hm, List.find?_append]
    have h1 : List.find? (fun p => p.1 == k') [(k, v)] = none := by
      rw [List.find?_cons_of_neg _ (by simpa using Ne.symm h)]
      rfl
    rw [h1]
    cases List.find? (fun p => p.1 == k') m <;> rfl

theorem recSet_recSet_self {α : Type} (m : Rec α) (k : String) (v v' : α) :
    recSet (recSet m k v) k v' = recSet m k v' := by
  unfold recSet
  by_cases hm : m.any (fun p => p.1 == k)
  · rw [if_pos hm]
    have hany : (m.map (fun p => if p.1 == k then (k, v) else p)).any (fun p => p.1 == k) := by
      rcases List.any_eq_true.mp hm with ⟨p, hp, hpk⟩
      exact List.any_eq_true.mpr
        ⟨(k, v), List.mem_map.mpr ⟨p, hp, by simp [show p.1 = k by simpa using hpk]⟩, by simp⟩
    rw [if_pos hany, if_pos hm, List.map_map]
    refine congrArg (fun f => List.map f m) ?_
    funext p
    by_cases hp : p.1 = k <;> simp [hp]
  · rw [if_neg hm]
    have hany : (m ++ [(k, v)]).any (fun p => p.1 == k) := by
      exact List.any_eq_true.mpr ⟨(k, v), by simp, by simp⟩
    rw [if_pos hany, if_neg hm, List.map_append]
    have hall : ∀ p ∈ m, (p.1 == k) = false := by
      intro p hp
      by_contra hc
      exact hm (List.any_eq_true.mpr ⟨p, hp, by simpa using hc⟩)
    have h1 : m.map (fun p => if p.1 == k then (k, v') else p) = m := by
      conv_rhs => rw [show m = m.map id from (List.map_id m).symm]
      refine List.map_congr_left ?_
      intro p hp
      simp [hall p hp]
    rw [h1]
    simp

theorem mem_recKeys_recSet {α : Type} (m : Rec α) (k e : String) (v : α) :
    e ∈ recKeys (recSet m k v) ↔ e ∈ recKeys m ∨ e = k := by
  unfold recKeys recSet
  by_cases hm : m.any (fun p => p.1 == k)
  · rw [if_pos hm]
    constructor
    · intro he
      rcases List.mem_map.mp he with ⟨p, hp, hpe⟩
      rcases List.mem_map.mp hp with ⟨q, hq, hqp⟩
      by_cases hqk : q.1 = k
      · right
        rw [← hpe, ← hqp]
        simp [hqk]
      · left
        refine List.mem_map.mpr ⟨q, hq, ?_⟩
        rw [← hpe, ← hqp]
        simp [hqk]
    · intro he
      rcases he with he | he
      · rcases List.mem_map.mp he with ⟨q, hq, hqe⟩
        by_cases hqk : q.1 = k
        · refine List.mem_map.mpr ⟨(k, v), List.mem_map.mpr ⟨q, hq, by simp [hqk]⟩, ?_⟩
          simp [← hqe, hqk]
        · exact List.mem_map.mpr ⟨q, List.mem_map.mpr ⟨q, hq, by simp [hqk]⟩, hqe⟩
      · rcases List.any_eq_true.mp hm with ⟨p, hp, hpk⟩
        refine List.mem_map.mpr ⟨(k, v), List.mem_map.mpr ⟨p, hp, by simp [show p.1 = k by simpa using hpk]⟩, by simp [he]⟩
  · rw [if_neg hm, List.map_append]
    simp [List.mem_append, recKeys]

/-! ## C6: ingest idempotence -/

/-- C6: For every store state, every filename, and every text content of any
table kind, ingesting the same `(filename, content)` pair twice in sequence
yields the same `Store` state as ingesting it once: each update is a full
replace of its slot (the global stats table, the per-episode basic-stats
slot, or the `(episode, kind)` table slot), never an append. -/
theorem ingestFileText_idempotent (P : ParseFns) (s : Store) (name text : String) :
    ingestFileText P (ingestFileText P s name text) name text =
      ingestFileText P s name text := by
  unfold ingestFileText
  cases hd : detectTableKey name with
  | none => rfl
  | some d =>
    dsimp only
    by_cases h1 : d.key = "episode_stats"
    · rw [if_pos h1]
      cases hc : P.csv text with
      | none => rw [if_pos h1]
      | some rows => rw [if_pos h1]
    · rw [if_neg h1]
      by_cases h2 : d.key = "danmaku_basic_stats"
      · rw [if_pos h2]
        cases he : d.ep with
        | none => rw [if_neg h1, if_pos h2]
        | some ep =>
          cases hj : P.json text with
          | none => rw [if_neg h1, if_pos h2]
          | some obj =>
            rw [if_neg h1, if_pos h2]
            simp only [recSet_recSet_self]
      · rw [if_neg h2]
        cases he : d.ep with
        | none => rw [if_neg h1, if_neg h2]
        | some ep =>
          cases hc : P.csv text with
          | none => rw [if_neg h1, if_neg h2]
          | some rows =>
            rw [if_neg h1, if_neg h2]
            simp only [recGet_recSet_self, Option.getD_some, recSet_recSet_self]

/-! ## C10: frame condition of a per-episode CSV ingest -/

/-- C10: A per-episode CSV table ingest (any classified kind other than the
global scalar-stats table and the basic-stats object) with extractable
episode id `e` leaves the global scalar-stats table, the basic-stats map,
the loaded-files log, every other episode's table map, and every other
table kind of episode `e` unchanged; only the `(e, kind)` slot and the
recomputed episode list may differ. -/
theorem ingestFileText_frame (P : ParseFns) (s : Store) (name text : String)
    (d : Detected) (e : String)
    (hd : detectTableKey name = some d)
    (h1 : d.key ≠ "episode_stats") (h2 : d.key ≠ "danmaku_basic_stats")
    (he : d.ep = some e) :
    (ingestFileText P s name text).episodeStats = s.episodeStats ∧
    (ingestFileText P s name text).basicStatsByEp = s.basicStatsByEp ∧
    (ingestFileText P s name text).loadedFiles = s.loadedFiles ∧
    (∀ e', e' ≠ e →
      recGet (ingestFileText P s name text).tablesByEp e' = recGet s.tablesByEp e') ∧
    (∀ k', k' ≠ d.key →
      recGet ((recGet (ingestFileText P s name text).tablesByEp e).getD []) k' =
        recGet ((recGet s.tablesByEp e).getD []) k') := by
  unfold ingestFileText
  rw [hd]
  dsimp only
  rw [if_neg h1, if_neg h2, he]
  cases hc : P.csv text with
  | none => exact ⟨rfl, rfl, rfl, fun _ _ => rfl, fun _ _ => rfl⟩
  | some rows =>
    refine ⟨rfl, rfl, rfl, ?_, ?_⟩
    · intro e' he'
      exact recGet_recSet_ne s.tablesByEp e e' _ he'
    · intro k' hk'
      rw [recGet_recSet_self, Option.getD_some]
      exact recGet_recSet_ne _ d.key k' rows hk'

/-- Witness for C10 at a concrete per-episode CSV ingest. -/
theorem ingestFileText_frame_witness :
    (ingestFileText ⟨fun _ => some [], fun _ => none⟩ initStore
        "danmaku_func_dist_ep12.csv" "x").episodeStats = initStore.episodeStats ∧
    (ingestFileText ⟨fun _ => some [], fun _ => none⟩ initStore
        "danmaku_func_dist_ep12.csv" "x").basicStatsByEp = initStore.basicStatsByEp ∧
    (ingestFileText ⟨fun _ => some [], fun _ => none⟩ initStore
        "danmaku_func_dist_ep12.csv" "x").loadedFiles = initStore.loadedFiles ∧
    (∀ e', e' ≠ "12" →
      recGet (ingestFileText ⟨fun _ => some [], fun _ => none⟩ initStore
        "danmaku_func_dist_ep12.csv" "x").tablesByEp e' = recGet initStore.tablesByEp e') ∧
    (∀ k', k' ≠ "danmaku_func_dist" →
      recGet ((recGet (ingestFileText ⟨fun _ => some [], fun _ => none⟩ initStore
        "danmaku_func_dist_ep12.csv" "x").tablesByEp "12").getD []) k' =
        recGet ((recGet initStore.tablesByEp "12").getD []) k') :=
  ingestFileText_frame ⟨fun _ => some [], fun _ => none⟩ initStore
    "danmaku_func_dist_ep12.csv" "x" ⟨"danmaku_func_dist", some "12"⟩ "12"
    (by decide) (by decide) (by decide) rfl

/-! ## Episode-set membership lemmas -/

theorem mem_insertIfAbsent (acc : List String) (e x : String) :
    x ∈ insertIfAbsent acc e ↔ x ∈ acc ∨ x = e := by
  unfold insertIfAbsent
  by_cases h : e ∈ acc
  · rw [if_pos h]
    constructor
    · exact Or.inl
    · rintro (hx | rfl)
      · exact hx
      · exact h
  · rw [if_neg h]
    simp

theorem mem_foldl_insertIfAbsent (l : List String) (acc : List String) (x : String) :
    x ∈ l.foldl insertIfAbsent acc ↔ x ∈ acc ∨ x ∈ l := by
  induction l generalizing acc with
  | nil => simp
  | cons e rest ih =>
    rw [List.foldl_cons, ih, mem_insertIfAbsent]
    constructor
    · rintro ((hx | rfl) | hx)
      · exact Or.inl hx
      · exact Or.inr (List.mem_cons_self _ _)
      · exact Or.inr (List.mem_cons_of_mem _ hx)
    · rintro (hx | hx)
      · exact Or.inl (Or.inl hx)
      · rcases List.mem_cons.mp hx with rfl | hx
        · exact Or.inl (Or.inr rfl)
        · exact Or.inr hx

theorem mem_foldl_insertGuard (l : List String) (acc : List String) (x : String) :
    x ∈ l.foldl (fun acc e => if e = "" then acc else insertIfAbsent acc e) acc ↔
      x ∈ acc ∨ (x ∈ l ∧ x ≠ "") := by
  induction l generalizing acc with
  | nil => simp
  | cons e rest ih =>
    rw [List.foldl_cons]
    by_cases he : e = ""
    · rw [if_pos he, ih]
      subst he
      constructor
      · rintro (hx | hx)
        · exact Or.inl hx
        · exact Or.inr ⟨List.mem_cons_of_mem _ hx.1, hx.2⟩
      · rintro (hx | ⟨hx, hne⟩)
        · exact Or.inl hx
        · rcases List.mem_cons.mp hx with rfl | hx
          · exact absurd rfl hne
          · exact Or.inr ⟨hx, hne⟩
    · rw [if_neg he, ih, mem_insertIfAbsent]
      constructor
      · rintro ((hx | rfl) | hx)
        · exact Or.inl hx
        · exact Or.inr ⟨List.mem_cons_self _ _, he⟩
        · exact Or.inr ⟨List.mem_cons_of_mem _ hx.1, hx.2⟩
      · rintro (hx | ⟨hx, hne⟩)
        · exact Or.inl (Or.inl hx)
        · rcases List.mem_cons.mp hx with rfl | hx
          · exact Or.inl (Or.inr rfl)
          · exact Or.inr ⟨hx, hne⟩

theorem mem_mergeEpisodes (t : Rec TableMap) (b : Rec Row) (es : Option (List Row))
    (x : String) :
    x ∈ mergeEpisodes t b es ↔
      x ∈ recKeys t ∨ x ∈ recKeys b ∨ x ∈ statsEpisodesOf es := by
  unfold mergeEpisodes
  rw [(List.perm_insertionSort epLe _).mem_iff, mem_foldl_insertGuard,
    mem_foldl_insertIfAbsent, mem_foldl_insertIfAbsent]
  unfold statsEpisodesOf
  rw [List.mem_filter]
  simp only [List.mem_nil_iff, false_or, bne_iff_ne, ne_eq]
  tauto

/-! ## The episodes invariant, C5 and C2 -/

theorem EpisodesInv_initStore : EpisodesInv initStore := rfl

theorem ingestFileText_EpisodesInv (P : ParseFns) (s : Store) (name text : String)
    (h : EpisodesInv s) : EpisodesInv (ingestFileText P s name text) := by
  unfold ingestFileText
  cases hd : detectTableKey name with
  | none => exact h
  | some d =>
    dsimp only
    by_cases h1 : d.key = "episode_stats"
    · rw [if_pos h1]
      cases hc : P.csv text with
      | none => exact h
      | some rows => exact rfl
    · rw [if_neg h1]
      by_cases h2 : d.key = "danmaku_basic_stats"
      · rw [if_pos h2]
        cases he : d.ep with
        | none => exact h
        | some ep =>
          cases hj : P.json text with
          | none => exact h
          | some obj => exact rfl
      · rw [if_neg h2]
        cases he : d.ep with
        | none => exact h
        | some ep =>
          cases hc : P.csv text with
          | none => exact h
          | some rows => exact rfl

theorem ingestAll_EpisodesInv (P : ParseFns) (files : List (String × String)) :
    EpisodesInv (ingestAll P files) := by
  unfold ingestAll
  have : ∀ (fs : List (String × String)) (s : Store), EpisodesInv s →
      EpisodesInv (fs.foldl (fun s f => ingestFileText P s f.1 f.2) s) := by
    intro fs
    induction fs with
    | nil => exact fun s h => h
    | cons f rest ih =>
      intro s h
      exact ih _ (ingestFileText_EpisodesInv P s f.1 f.2 h)
  exact this files initStore EpisodesInv_initStore

/-- C5: After every sequence of ingest operations, the store's derived
episode list contains exactly the union of the episode keys of the
per-episode table map, the episode keys of the basic-stats map, and the
(non-empty) episode identifiers embedded in the rows of the global
scalar-stats table. -/
theorem ingestAll_episodes_union (P : ParseFns) (files : List (String × String))
    (e : String) :
    e ∈ (ingestAll P files).episodes ↔
      e ∈ recKeys (ingestAll P files).tablesByEp ∨
      e ∈ recKeys (ingestAll P files).basicStatsByEp ∨
      e ∈ statsEpisodesOf (ingestAll P files).episodeStats := by
  rw [ingestAll_EpisodesInv P files]
  exact mem_mergeEpisodes _ _ _ e

/-- C2 fails as stated: ingesting a *new global scalar-stats table* replaces
the old one wholesale, so an episode witnessed only by the old global table
is deleted from the derived episode list.  Here episode "5" exists after the
first `episode_stats.csv` upload and is gone after the second. -/
theorem episode_dropped_on_stats_overwrite :
    "5" ∈ (ingestFileText
        ⟨fun t => if t = "A" then some [[("episode_id", CellVal.str "5")]]
                  else some [[("episode_id", CellVal.str "7")]], fun _ => none⟩
        initStore "episode_stats.csv" "A").episodes ∧
    "5" ∉ (ingestFileText
        ⟨fun t => if t = "A" then some [[("episode_id", CellVal.str "5")]]
                  else some [[("episode_id", CellVal.str "7")]], fun _ => none⟩
        (ingestFileText
          ⟨fun t => if t = "A" then some [[("episode_id", CellVal.str "5")]]
                    else some [[("episode_id", CellVal.str "7")]], fun _ => none⟩
          initStore "episode_stats.csv" "A")
        "episode_stats.csv" "B").episodes := by
  decide

/-- C2 (amended): an episode, once known, survives every ingest that is not
a global scalar-stats (`episode_stats`) upload; only a global scalar-stats
re-upload can delete episodes (those witnessed solely by the replaced
table), as shown by the counterexample. -/
theorem ingest_preserves_episodes (P : ParseFns) (s : Store) (name text : String)
    (hinv : EpisodesInv s)
    (hkey : ∀ d, detectTableKey name = some d → d.key ≠ "episode_stats") :
    ∀ e ∈ s.episodes, e ∈ (ingestFileText P s name text).episodes := by
  intro e he
  unfold ingestFileText
  cases hd : detectTableKey name with
  | none => exact he
  | some d =>
    dsimp only
    have h1 : d.key ≠ "episode_stats" := hkey d hd
    rw [if_neg h1]
    rw [hinv, mem_mergeEpisodes] at he
    by_cases h2 : d.key = "danmaku_basic_stats"
    · rw [if_pos h2]
      cases he2 : d.ep with
      | none => rw [hinv, mem_mergeEpisodes]; exact he
      | some ep =>
        cases hj : P.json text with
        | none => rw [hinv, mem_mergeEpisodes]; exact he
        | some obj =>
          show e ∈ mergeEpisodes s.tablesByEp (recSet s.basicStatsByEp ep obj) s.episodeStats
          rw [mem_mergeEpisodes]
          rcases he with h | h | h
          · exact Or.inl h
          · exact Or.inr (Or.inl ((mem_recKeys_recSet _ _ _ _).mpr (Or.inl h)))
          · exact Or.inr (Or.inr h)
    · rw [if_neg h2]
      cases he2 : d.ep with
      | none => rw [hinv, mem_mergeEpisodes]; exact he
      | some ep =>
        cases hc : P.csv text with
        | none => rw [hinv, mem_mergeEpisodes]; exact he
        | some rows =>
          show e ∈ mergeEpisodes
            (recSet s.tablesByEp ep (recSet ((recGet s.tablesByEp ep).getD []) d.key rows))
            s.basicStatsByEp s.episodeStats
          rw [mem_mergeEpisodes]
          rcases he with h | h | h
          · exact Or.inl ((mem_recKeys_recSet _ _ _ _).mpr (Or.inl h))
          · exact Or.inr (Or.inl h)
          · exact Or.inr (Or.inr h)

/-- Witness for the amended C2 at a concrete non-global ingest. -/
theorem ingest_preserves_episodes_witness :
    "5" ∈ (ingestFileText ⟨fun _ => some [], fun _ => some []⟩
      { episodes := ["5"], episodeStats := none,
        basicStatsByEp := [("5", [])], tablesByEp := [], loadedFiles := [] }
      "danmaku_func_dist_ep12.csv" "x").episodes :=
  ingest_preserves_episodes ⟨fun _ => some [], fun _ => some []⟩
    { episodes := ["5"], episodeStats := none,
      basicStatsByEp := [("5", [])], tablesByEp := [], loadedFiles := [] }
    "danmaku_func_dist_ep12.csv" "x" (by unfold EpisodesInv; decide)
    (by intro d hd; rw [show detectTableKey "danmaku_func_dist_ep12.csv" =
          some ⟨"danmaku_func_dist", some "12"⟩ from by decide] at hd;
        cases hd; decide)
    "5" (by decide)

/-! ## C8: explicit empty result when no episode has the needed table -/

/-- C8: For every selection of episodes and every comparison kind (closed-
and open-vocabulary alike), if no selected episode has any rows for the
required table kind, the aggregator returns an empty row set and an empty
category list rather than fabricating all-zero rows. -/
theorem distCompareData_empty_on_no_data (tablesByEp : Rec TableMap) (eps : List String)
    (kind : DistKind) (topN : ℚ)
    (h : ∀ ep ∈ eps,
      (epTable tablesByEp ep
        (if isEmoKind kind then distEmoTableKey kind else distFuncTableKey kind)).length = 0) :
    (distCompareData tablesByEp eps kind topN).rows = [] ∧
    (distCompareData tablesByEp eps kind topN).keys = [] := by
  unfold distCompareData
  by_cases hemp : eps.isEmpty
  · rw [if_pos hemp]
    exact ⟨rfl, rfl⟩
  · rw [if_neg hemp]
    by_cases hk : isEmoKind kind
    · rw [if_pos hk]
      have hany : (eps.any fun ep =>
          decide ((epTable tablesByEp ep (distEmoTableKey kind)).length > 0)) = false := by
        rw [List.any_eq_false]
        intro ep hep
        have := h ep hep
        rw [if_pos hk] at this
        simp [this]
      rw [if_pos (by simp [hany])]
      exact ⟨rfl, rfl⟩
    · rw [if_neg hk]
      have hany : (eps.any fun ep =>
          decide ((epTable tablesByEp ep (distFuncTableKey kind)).length > 0)) = false := by
        rw [List.any_eq_false]
        intro ep hep
        have := h ep hep
        rw [if_neg hk] at this
        simp [this]
      rw [if_pos (by simp [hany])]
      exact ⟨rfl, rfl⟩

/-- Witness for C8: one selected episode, an empty store, emotion kind. -/
theorem distCompareData_empty_on_no_data_witness :
    (distCompareData [] ["1"] DistKind.emo_danmaku 6).rows = [] ∧
    (distCompareData [] ["1"] DistKind.emo_danmaku 6).keys = [] :=
  distCompareData_empty_on_no_data [] ["1"] DistKind.emo_danmaku 6 (by decide)

/-! ## C4: `computePeak` -/

theorem peakLoop_some (key : String) :
    ∀ (rows : List Row) (m0 v0 : ℚ),
      ∃ m' v', peakLoop key rows (some (m0, v0)) = some (m', v') ∧
        v0 ≤ v' ∧ (∀ r ∈ rows, seriesVal key r ≤ v') ∧
        ((m' = m0 ∧ v' = v0) ∨
          ∃ pre r post, rows = pre ++ r :: post ∧ rowMinute r = m' ∧ seriesVal key r = v' ∧
            v0 < v' ∧ ∀ x ∈ pre, seriesVal key x < v') := by
  intro rows
  induction rows with
  | nil =>
    intro m0 v0
    exact ⟨m0, v0, rfl, le_refl _, by simp, Or.inl ⟨rfl, rfl⟩⟩
  | cons r rest ih =>
    intro m0 v0
    by_cases hv : v0 < seriesVal key r
    · obtain ⟨m', v', heq, hle, hall, hcase⟩ := ih (rowMinute r) (seriesVal key r)
      refine ⟨m', v', ?_, le_of_lt (lt_of_lt_of_le hv hle), ?_, ?_⟩
      · simp only [peakLoop]
        rw [if_pos hv]
        exact heq
      · intro x hx
        rcases List.mem_cons.mp hx with rfl | hx
        · exact hle
        · exact hall x hx
      · rcases hcase with ⟨rfl, rfl⟩ | ⟨pre, r', post, hsplit, hm, hval, hlt, hpre⟩
        · exact Or.inr ⟨[], r, rest, rfl, rfl, rfl, hv, by simp⟩
        · refine Or.inr ⟨r :: pre, r', post, by rw [hsplit]; rfl, hm, hval, lt_trans hv hlt, ?_⟩
          intro x hx
          rcases List.mem_cons.mp hx with rfl | hx
          · exact hlt
          · exact hpre x hx
    · obtain ⟨m', v', heq, hle, hall, hcase⟩ := ih m0 v0
      refine ⟨m', v', ?_, hle, ?_, ?_⟩
      · simp only [peakLoop]
        rw [if_neg hv]
        exact heq
      · intro x hx
        rcases List.mem_cons.mp hx with rfl | hx
        · exact le_trans (le_of_not_lt hv) hle
        · exact hall x hx
      · rcases hcase with ⟨hm, hv'⟩ | ⟨pre, r', post, hsplit, hm, hval, hlt, hpre⟩
        · exact Or.inl ⟨hm, hv'⟩
        · refine Or.inr ⟨r :: pre, r', post, by rw [hsplit]; rfl, hm, hval, hlt, ?_⟩
          intro x hx
          rcases List.mem_cons.mp hx with rfl | hx
          · exact lt_of_le_of_lt (le_of_not_lt hv) hlt
          · exact hpre x hx

/-- C4 fails as stated: ties at the maximum are broken by first occurrence
in the *given* input order, not in the minute-ascending-sorted order.  For
the unsorted series `[(5,9),(2,9)]` the claim dictates `{minute 2}` (first
tie in minute order); the code returns `{minute 5}`. -/
theorem computePeak_tiebreak_counterexample :
    computePeak [[("minute", CellVal.num 5), ("v", CellVal.num 9)],
                 [("minute", CellVal.num 2), ("v", CellVal.num 9)]] "v" = some (5, 9) ∧
    computePeak [[("minute", CellVal.num 5), ("v", CellVal.num 9)],
                 [("minute", CellVal.num 2), ("v", CellVal.num 9)]] "v" ≠ some (2, 9) := by
  decide

/-- C4 (amended): `computePeak` returns `none` exactly when the series is
empty or every value of the key is negative (i.e. the maximum is negative);
otherwise it returns the minute and value of the row holding the maximum,
ties broken by first occurrence in the *given* input order (the callers
pass minute-sorted series, for which this agrees with the claim); in
particular on `[(1,5),(2,9),(3,3)]` it returns `{minute 2, value 9}`. -/
theorem computePeak_correct (rows : List Row) (key : String) :
    (computePeak rows key = none ↔ rows = [] ∨ ∀ r ∈ rows, seriesVal key r < 0) ∧
    (∀ m v, computePeak rows key = some (m, v) →
      (∀ r ∈ rows, seriesVal key r ≤ v) ∧
      ∃ pre r post, rows = pre ++ r :: post ∧ rowMinute r = m ∧ seriesVal key r = v ∧
        ∀ x ∈ pre, seriesVal key x < v) ∧
    computePeak [[("minute", CellVal.num 1), ("v", CellVal.num 5)],
                 [("minute", CellVal.num 2), ("v", CellVal.num 9)],
                 [("minute", CellVal.num 3), ("v", CellVal.num 3)]] "v" = some (2, 9) := by
  cases rows with
  | nil =>
    refine ⟨by simp [computePeak, peakLoop], ?_, by decide⟩
    intro m v h
    simp [computePeak, peakLoop] at h
  | cons r rest =>
    obtain ⟨m', v', heq, hle, hall, hcase⟩ := peakLoop_some key rest (rowMinute r) (seriesVal key r)
    have hloop : peakLoop key (r :: rest) none = some (m', v') := by
      simp only [peakLoop]
      exact heq
    have hattain : ∃ x ∈ r :: rest, seriesVal key x = v' := by
      rcases hcase with ⟨_, hv'⟩ | ⟨pre, r', post, hsplit, _, hval, _, _⟩
      · exact ⟨r, List.mem_cons_self _ _, hv'.symm⟩
      · exact ⟨r', by rw [hsplit]; exact List.mem_cons_of_mem _ (List.mem_append_right _ (List.mem_cons_self _ _)), hval⟩
    constructor
    · constructor
      · intro h
        rw [computePeak, hloop] at h
        dsimp only at h
        by_cases hneg : v' < 0
        · right
          intro x hx
          rcases List.mem_cons.mp hx with rfl | hx
          · exact lt_of_le_of_lt hle hneg
          · exact lt_of_le_of_lt (hall x hx) hneg
        · rw [if_neg hneg] at h
          exact absurd h (by simp)
      · rintro (h | h)
        · exact absurd h (by simp)
        · rw [computePeak, hloop]
          dsimp only
          obtain ⟨x, hx, hxv⟩ := hattain
          rw [if_pos (hxv ▸ h x hx)]
    · constructor
      · intro m v h
        rw [computePeak, hloop] at h
        dsimp only at h
        by_cases hneg : v' < 0
        · rw [if_pos hneg] at h
          exact absurd h (by simp)
        · rw [if_neg hneg] at h
          have hm : m' = m ∧ v' = v := by
            have h2 := Option.some.inj h
            exact ⟨congrArg Prod.fst h2, congrArg Prod.snd h2⟩
          obtain ⟨rfl, rfl⟩ := hm
          constructor
          · intro x hx
            rcases List.mem_cons.mp hx with rfl | hx
            · exact hle
            · exact hall x hx
          · rcases hcase with ⟨hm0, hv0⟩ | ⟨pre, r', post, hsplit, hmm, hval, hlt, hpre⟩
            · exact ⟨[], r, rest, rfl, hm0.symm, hv0.symm, by simp⟩
            · refine ⟨r :: pre, r', post, by rw [hsplit]; rfl, hmm, hval, ?_⟩
              intro x hx
              rcases List.mem_cons.mp hx with rfl | hx
              · exact hlt
              · exact hpre x hx
      · decide

/-- Witness for the amended C4: instantiating the characterization at the
concrete series `[(1,5),(2,9),(3,3)]`. -/
theorem computePeak_correct_witness :
    (∀ r ∈ [[("minute", CellVal.num 1), ("v", CellVal.num 5)],
            [("minute", CellVal.num 2), ("v", CellVal.num 9)],
            [("minute", CellVal.num 3), ("v", CellVal.num 3)]], seriesVal "v" r ≤ 9) ∧
    (∃ pre r post,
      [[("minute", CellVal.num 1), ("v", CellVal.num 5)],
       [("minute", CellVal.num 2), ("v", CellVal.num 9)],
       [("minute", CellVal.num 3), ("v", CellVal.num 3)]] = pre ++ r :: post ∧
      rowMinute r = 2 ∧ seriesVal "v" r = 9 ∧ ∀ x ∈ pre, seriesVal "v" x < 9) :=
  (computePeak_correct
    [[("minute", CellVal.num 1), ("v", CellVal.num 5)],
     [("minute", CellVal.num 2), ("v", CellVal.num 9)],
     [("minute", CellVal.num 3), ("v", CellVal.num 3)]] "v").2.1 2 9 (by decide)

/-! ## C3: `topKIntervals` returns pairwise non-overlapping intervals -/

theorem extendJ_ge (minutes : List ℚ) (endM : ℚ) :
    ∀ (fuel j : ℕ), j ≤ extendJ minutes endM fuel j := by
  intro fuel
  induction fuel with
  | zero => intro j; exact le_refl j
  | succ fuel ih =>
    intro j
    rw [extendJ]
    by_cases h : j + 1 < minutes.length ∧ minutes.getD (j + 1) 0 ≤ endM
    · rw [if_pos h]
      exact le_trans (Nat.le_succ j) (ih (j + 1))
    · rw [if_neg h]

theorem extendJ_lt_length (minutes : List ℚ) (endM : ℚ) :
    ∀ (fuel j : ℕ), j < minutes.length → extendJ minutes endM fuel j < minutes.length := by
  intro fuel
  induction fuel with
  | zero => intro j h; exact h
  | succ fuel ih =>
    intro j h
    rw [extendJ]
    by_cases hc : j + 1 < minutes.length ∧ minutes.getD (j + 1) 0 ≤ endM
    · rw [if_pos hc]
      exact ih (j + 1) hc.1
    · rw [if_neg hc]
      exact h

theorem extendJ_le_endM (minutes : List ℚ) (endM : ℚ) :
    ∀ (fuel j : ℕ), minutes.getD j 0 ≤ endM →
      minutes.getD (extendJ minutes endM fuel j) 0 ≤ endM := by
  intro fuel
  induction fuel with
  | zero => intro j h; exact h
  | succ fuel ih =>
    intro j h
    rw [extendJ]
    by_cases hc : j + 1 < minutes.length ∧ minutes.getD (j + 1) 0 ≤ endM
    · rw [if_pos hc]
      exact ih (j + 1) hc.2
    · rw [if_neg hc]
      exact h

theorem extendJ_stop (minutes : List ℚ) (endM : ℚ) :
    ∀ (fuel j : ℕ), minutes.length ≤ j + fuel + 1 →
      ¬(extendJ minutes endM fuel j + 1 < minutes.length ∧
        minutes.getD (extendJ minutes endM fuel j + 1) 0 ≤ endM) := by
  intro fuel
  induction fuel with
  | zero =>
    intro j h hc
    rw [extendJ] at hc
    omega
  | succ fuel ih =>
    intro j h
    rw [extendJ]
    by_cases hc : j + 1 < minutes.length ∧ minutes.getD (j + 1) 0 ≤ endM
    · rw [if_pos hc]
      exact ih (j + 1) (by omega)
    · rw [if_neg hc]
      exact hc

theorem pairwise_le_getD (l : List ℚ) (h : List.Pairwise (· ≤ ·) l) (a b : ℕ)
    (hab : a ≤ b) (hb : b < l.length) : l.getD a 0 ≤ l.getD b 0 := by
  rcases Nat.lt_or_ge a b with hlt | hge
  · have ha : a < l.length := lt_trans hlt hb
    rw [List.getD_eq_getElem l 0 ha, List.getD_eq_getElem l 0 hb]
    have := List.pairwise_iff_get.mp h ⟨a, ha⟩ ⟨b, hb⟩ hlt
    simpa using this
  · have : a = b := le_antisymm hab hge
    rw [this]

theorem mkCand_spec (minutes ps : List ℚ) (w : ℚ) (i : ℕ)
    (hi : i < minutes.length) (hw : 1 ≤ w) :
    (mkCand minutes ps w i).ci = i ∧
    i ≤ (mkCand minutes ps w i).cj ∧
    (mkCand minutes ps w i).cj < minutes.length ∧
    (mkCand minutes ps w i).cstart = minutes.getD i 0 ∧
    (mkCand minutes ps w i).cstop = minutes.getD (mkCand minutes ps w i).cj 0 ∧
    minutes.getD (mkCand minutes ps w i).cj 0 ≤ minutes.getD i 0 + (w - 1) ∧
    ((mkCand minutes ps w i).cj + 1 < minutes.length →
      ¬minutes.getD ((mkCand minutes ps w i).cj + 1) 0 ≤ minutes.getD i 0 + (w - 1)) := by
  unfold mkCand
  dsimp only
  refine ⟨rfl, extendJ_ge _ _ _ _, extendJ_lt_length _ _ _ _ hi, rfl, rfl, ?_, ?_⟩
  · exact extendJ_le_endM _ _ _ _ (by linarith)
  · intro hlt hle
    exact extendJ_stop minutes _ minutes.length i (by omega) ⟨hlt, hle⟩

theorem greedyGo_shape (kk : ℚ) (S : Cand → Prop) :
    ∀ (cands : List Cand) (cs : List Cand),
      (∀ c ∈ cands, S c) → (∀ c ∈ cs, S c) →
      List.Pairwise (fun c c' => rangesOverlap (c.ci, c.cj) (c'.ci, c'.cj) = false) cs →
      ∃ cs', (∀ c ∈ cs', S c) ∧
        List.Pairwise (fun c c' => rangesOverlap (c.ci, c.cj) (c'.ci, c'.cj) = false) cs' ∧
        greedyGo kk cands
            (cs.map (fun c => { istart := c.cstart, istop := c.cstop, iscore := c.score }))
            (cs.map (fun c => (c.ci, c.cj))) =
          cs'.map (fun c => { istart := c.cstart, istop := c.cstop, iscore := c.score }) := by
  intro cands
  induction cands with
  | nil =>
    intro cs _ hS hPW
    exact ⟨cs, hS, hPW, rfl⟩
  | cons c rest ih =>
    intro cs hcands hS hPW
    rw [greedyGo]
    by_cases hk : kk ≤ ((cs.map (fun c => ({ istart := c.cstart, istop := c.cstop, iscore := c.score } : Ival))).length : ℚ)
    · rw [if_pos hk]
      exact ⟨cs, hS, hPW, rfl⟩
    · rw [if_neg hk]
      by_cases hov : (cs.map (fun c => (c.ci, c.cj))).any (fun u => rangesOverlap u (c.ci, c.cj))
      · rw [if_pos hov]
        exact ih cs (fun x hx => hcands x (List.mem_cons_of_mem _ hx)) hS hPW
      · rw [if_neg hov]
        have hnew : ∀ x ∈ cs, rangesOverlap (x.ci, x.cj) (c.ci, c.cj) = false := by
          intro x hx
          have := List.any_eq_false.mp (Bool.eq_false_iff.mpr hov) (x.ci, x.cj)
            (List.mem_map.mpr ⟨x, hx, rfl⟩)
          simpa using this
        have hPW' : List.Pairwise (fun a b => rangesOverlap (a.ci, a.cj) (b.ci, b.cj) = false)
            (cs ++ [c]) := by
          rw [List.pairwise_append]
          refine ⟨hPW, List.pairwise_singleton _ _, ?_⟩
          intro a ha b hb
          rw [List.mem_singleton.mp hb]
          exact hnew a ha
        have hS' : ∀ x ∈ cs ++ [c], S x := by
          intro x hx
          rcases List.mem_append.mp hx with hx | hx
          · exact hS x hx
          · rw [List.mem_singleton.mp hx]
            exact hcands c (List.mem_cons_self _ _)
        obtain ⟨cs', h1, h2, h3⟩ := ih (cs ++ [c])
          (fun x hx => hcands x (List.mem_cons_of_mem _ hx)) hS' hPW'
        refine ⟨cs', h1, h2, ?_⟩
        rw [← h3, List.map_append, List.map_append]
        rfl

theorem pipeline_pairwise (minutes ps : List ℚ) (n : ℕ) (w kk : ℚ) (hw : 1 ≤ w)
    (hn : n = minutes.length)
    (hsort : List.Pairwise (fun a b : ℚ => a ≤ b) minutes) :
    List.Pairwise (fun p q => min p.istop q.istop < max p.istart q.istart)
      (List.insertionSort startLe
        (greedyGo kk (List.insertionSort scoreGe ((List.range n).map (mkCand minutes ps w)))
          [] [])) := by
  subst hn
  have hS : ∀ c ∈ List.insertionSort scoreGe
      ((List.range minutes.length).map (mkCand minutes ps w)),
      ∃ i, i < minutes.length ∧ c = mkCand minutes ps w i := by
    intro c hc
    have hc2 := (List.perm_insertionSort scoreGe _).mem_iff.mp hc
    rcases List.mem_map.mp hc2 with ⟨i, hi, rfl⟩
    exact ⟨i, List.mem_range.mp hi, rfl⟩
  obtain ⟨cs, hcsS, hcsPW, hexpr⟩ :=
    greedyGo_shape kk (fun c => ∃ i, i < minutes.length ∧ c = mkCand minutes ps w i)
      (List.insertionSort scoreGe ((List.range minutes.length).map (mkCand minutes ps w)))
      [] hS (by simp) List.Pairwise.nil
  simp only [List.map_nil] at hexpr
  rw [hexpr]
  have hX : List.Pairwise (fun p q => min p.istop q.istop < max p.istart q.istart)
      (cs.map (fun c => ({ istart := c.cstart, istop := c.cstop, iscore := c.score } : Ival))) := by
    refine List.pairwise_map.mpr ?_
    refine List.Pairwise.imp_of_mem ?_ hcsPW
    intro a b ha hb hov
    obtain ⟨i, hi, rfl⟩ := hcsS a ha
    obtain ⟨i', hi', rfl⟩ := hcsS b hb
    obtain ⟨hci, hij, hjlt, hstart, hstop, hle, hstopj⟩ := mkCand_spec minutes ps w i hi hw
    obtain ⟨hci', hij', hjlt', hstart', hstop', hle', hstopj'⟩ := mkCand_spec minutes ps w i' hi' hw
    have hno : ¬(max (mkCand minutes ps w i).ci (mkCand minutes ps w i').ci ≤
        min (mkCand minutes ps w i).cj (mkCand minutes ps w i').cj) := by
      have := of_decide_eq_false hov
      simpa [rangesOverlap] using this
    rw [hci, hci'] at hno
    dsimp only
    rcases (by omega :
        (mkCand minutes ps w i).cj < i' ∨ (mkCand minutes ps w i').cj < i) with hcase | hcase
    · have h1 : (mkCand minutes ps w i).cj + 1 ≤ i' := hcase
      have h2 : (mkCand minutes ps w i).cj + 1 < minutes.length := lt_of_le_of_lt h1 hi'
      have h3 := hstopj h2
      have h4 : minutes.getD ((mkCand minutes ps w i).cj + 1) 0 ≤ minutes.getD i' 0 :=
        pairwise_le_getD minutes hsort _ _ h1 hi'
      have h5 : (mkCand minutes ps w i).cstop < (mkCand minutes ps w i').cstart := by
        rw [hstop, hstart']
        have := hle
        linarith [lt_of_not_le h3]
      calc min (mkCand minutes ps w i).cstop (mkCand minutes ps w i').cstop
          ≤ (mkCand minutes ps w i).cstop := min_le_left _ _
        _ < (mkCand minutes ps w i').cstart := h5
        _ ≤ max (mkCand minutes ps w i).cstart (mkCand minutes ps w i').cstart := le_max_right _ _
    · have h1 : (mkCand minutes ps w i').cj + 1 ≤ i := hcase
      have h2 : (mkCand minutes ps w i').cj + 1 < minutes.length := lt_of_le_of_lt h1 hi
      have h3 := hstopj' h2
      have h4 : minutes.getD ((mkCand minutes ps w i').cj + 1) 0 ≤ minutes.getD i 0 :=
        pairwise_le_getD minutes hsort _ _ h1 hi
      have h5 : (mkCand minutes ps w i').cstop < (mkCand minutes ps w i).cstart := by
        rw [hstop', hstart]
        have := hle'
        linarith [lt_of_not_le h3]
      calc min (mkCand minutes ps w i).cstop (mkCand minutes ps w i').cstop
          ≤ (mkCand minutes ps w i').cstop := min_le_right _ _
        _ < (mkCand minutes ps w i).cstart := h5
        _ ≤ max (mkCand minutes ps w i).cstart (mkCand minutes ps w i').cstart := le_max_left _ _
  exact List.Pairwise.perm hX (List.perm_insertionSort startLe _).symm
    (fun {x y} h => by rw [min_comm, max_comm]; exact h)

/-- C3: For every input series (rows in any order, duplicate minutes
allowed), every series key, and every `windowSize` and `k`, any two
intervals returned by `topKIntervals` satisfy
`max(start_i, start_j) > min(end_i, end_j)`: no returned pair overlaps,
inclusive bounds included. -/
theorem topKIntervals_no_overlap (curveRows : List Row) (seriesKey : String)
    (windowSize k : ℚ) :
    List.Pairwise (fun p q => min p.istop q.istop < max p.istart q.istart)
      (topKIntervals curveRows seriesKey windowSize k) := by
  unfold topKIntervals
  by_cases hemp : curveRows.isEmpty
  · rw [if_pos hemp]
    exact List.Pairwise.nil
  · rw [if_neg hemp]
    dsimp only
    have hsort : List.Pairwise (fun a b : ℚ => a ≤ b)
        ((List.insertionSort minuteLe curveRows).map rowMinute) := by
      refine List.pairwise_map.mpr ?_
      exact @List.sorted_insertionSort Row minuteLe (fun a b => inferInstance)
        ⟨fun a b => le_total (rowMinute a) (rowMinute b)⟩
        ⟨fun a b c => le_trans⟩ curveRows
    exact pipeline_pairwise _ _ _ _ _ (le_max_left 1 _) (by rw [List.length_map]) hsort

/-! ## C1: the end-to-end open-vocabulary scenario -/

/-- C1 fails as stated: on the spec's own two-episode scenario with
`topN = 2`, the named categories are *not* `{greet, spoiler}` (the bound is
clamped up to 3, and a tag's mean is taken over the episodes in which it
occurs, so `hype` scores `0.4`, not `0.2`), and episode "1"'s `other` is
`0.4`, not `0.3`. -/
theorem distCompare_scenario_counterexample :
    "greet" ∉ (distCompareData specScenarioTables ["1", "2"]
      DistKind.func_danmaku 2).keys.dropLast ∧
    getCell ((distCompareData specScenarioTables ["1", "2"]
      DistKind.func_danmaku 2).rows.getD 0 []) "other" ≠ some (CellVal.num (3/10)) := by
  with_unfolding_all decide

/-- C1 (amended): on the spec §8.9 scenario with `topN = 2`, the bound is
clamped to 3 and per-tag means are taken over the episodes in which the tag
occurs, so the aggregator selects `{spoiler, hype, other_tag}` (spoiler 0.4,
hype 0.4, other_tag 0.3, greet 0.25) as named categories, and the `other`
residual is `0.4` for episode "1" and `0.1` for episode "2". -/
theorem distCompare_scenario_amended :
    (distCompareData specScenarioTables ["1", "2"] DistKind.func_danmaku 2).keys =
      ["spoiler", "hype", "other_tag", "other"] ∧
    getCell ((distCompareData specScenarioTables ["1", "2"]
      DistKind.func_danmaku 2).rows.getD 0 []) "other" = some (CellVal.num (2/5)) ∧
    getCell ((distCompareData specScenarioTables ["1", "2"]
      DistKind.func_danmaku 2).rows.getD 1 []) "other" = some (CellVal.num (1/10)) := by
  with_unfolding_all decide

/-! ## C9: the color assigner against the spec's reference definition -/

theorem utf16Units_ascii (c : Char) (h : c.toNat < 128) : utf16Units c = [c.toNat] := by
  unfold utf16Units
  rw [if_pos (by omega)]

theorem utf8EncodeCharNat_ascii (c : Char) (h : c.toNat < 128) :
    utf8EncodeCharNat c = [c.toNat] := by
  unfold utf8EncodeCharNat
  rw [if_pos h]

theorem foldr_units_eq_of_ascii (l : List Char) :
    (∀ c ∈ l, c.toNat < 128) →
      l.foldr (fun c acc => utf16Units c ++ acc) [] =
        l.foldr (fun c acc => utf8EncodeCharNat c ++ acc) [] := by
  induction l with
  | nil => intro _; rfl
  | cons c rest ih =>
    intro h
    rw [List.foldr_cons, List.foldr_cons,
      utf16Units_ascii c (h c (List.mem_cons_self _ _)),
      utf8EncodeCharNat_ascii c (h c (List.mem_cons_self _ _)),
      ih (fun x hx => h x (List.mem_cons_of_mem _ hx))]

theorem codeUnits_eq_utf8Bytes_of_ascii (s : String) (h : ∀ c ∈ s.data, c.toNat < 128) :
    strCodeUnits s = utf8Bytes s :=
  foldr_units_eq_of_ascii s.data h

/-- C9 fails as stated: the code hashes the key's UTF-16 code units
(`charCodeAt`), while the spec's reference definition hashes the key's
bytes; on any non-ASCII key (here `"é"`, code unit `0xE9`, UTF-8 bytes
`0xC3 0xA9`) the two produce different colors. -/
theorem colorForKey_spec_counterexample :
    colorForKey "é" Mode.func ≠ specStableColorFromKey "é" := by
  with_unfolding_all decide

/-- C9 (amended): for every key whose characters are ASCII (where code
units and bytes coincide — every key of the fixed emotion/polarity
vocabularies and the series keys in the shipped data are ASCII), the color
assigner agrees exactly with the spec's reference FNV-1a/HSL definition;
two calls with the same arguments are definitionally identical (the
assigner is a pure function with no palette state); and closed-vocabulary
emotion keys always map to the fixed curated table. -/
theorem colorForKey_matches_spec (key : String)
    (h : ∀ c ∈ key.data, c.toNat < 128) :
    colorForKey key Mode.func = specStableColorFromKey key ∧
    (∀ k' : String, ∀ m : Mode, colorForKey k' m = colorForKey k' m) ∧
    (∀ e c, recGet EMO_COLOR_MAP e = some c → colorForKey e Mode.emo = c) := by
  refine ⟨?_, fun _ _ => rfl, ?_⟩
  · have h2 : ∀ c ∈ (key ++ "_l").data, c.toNat < 128 := by
      intro c hc
      rw [String.data_append] at hc
      rcases List.mem_append.mp hc with hc | hc
      · exact h c hc
      · have hall : ∀ x ∈ "_l".data, x.toNat < 128 := by decide
        exact hall c hc
    show stableColorFromKey key = specStableColorFromKey key
    unfold stableColorFromKey specStableColorFromKey fnv1aHash32 specFnv1aHash32
    rw [codeUnits_eq_utf8Bytes_of_ascii key h,
      codeUnits_eq_utf8Bytes_of_ascii (key ++ "_l") h2]
  · intro e c hc
    show (match recGet EMO_COLOR_MAP e with | some c => c | none => "#334155") = c
    rw [hc]

/-- Witness for the amended C9 at the ASCII key `"greet"`. -/
theorem colorForKey_matches_spec_witness :
    colorForKey "greet" Mode.func = specStableColorFromKey "greet" ∧
    (∀ k' : String, ∀ m : Mode, colorForKey k' m = colorForKey k' m) ∧
    (∀ e c, recGet EMO_COLOR_MAP e = some c → colorForKey e Mode.emo = c) :=
  colorForKey_matches_spec "greet" (by decide)

/-! ## C7: `other` is non-negative and completes well-formed rows to 1 -/

theorem getCell_eq_recGet (r : Row) (k : String) : getCell r k = recGet r k := rfl

theorem any_keys_iff {α : Type} (m : Rec α) (k : String) :
    m.any (fun p => p.1 == k) = true ↔ k ∈ recKeys m := by
  rw [List.any_eq_true]
  unfold recKeys
  constructor
  · rintro ⟨p, hp, hpk⟩
    exact List.mem_map.mpr ⟨p, hp, by simpa using hpk⟩
  · intro h
    rcases List.mem_map.mp h with ⟨p, hp, rfl⟩
    exact ⟨p, hp, by simp⟩

theorem recGet_eq_none_of_not_mem {α : Type} (m : Rec α) (k : String)
    (h : k ∉ recKeys m) : recGet m k = none := by
  unfold recGet
  rw [not_any_find?_eq_none m k (fun ha => h ((any_keys_iff m k).mp ha))]
  rfl

theorem recKeys_recSet_eq {α : Type} (m : Rec α) (k : String) (v : α) :
    recKeys (recSet m k v) = if k ∈ recKeys m then recKeys m else recKeys m ++ [k] := by
  unfold recSet
  by_cases hm : m.any (fun p => p.1 == k)
  · rw [if_pos ((any_keys_iff m k).mp hm), if_pos hm]
    unfold recKeys
    rw [List.map_map]
    apply List.map_congr_left
    intro p hp
    by_cases hpk : p.1 = k <;> simp [hpk]
  · rw [if_neg (fun hk => hm ((any_keys_iff m k).mpr hk)), if_neg hm]
    unfold recKeys
    rw [List.map_append]
    rfl

theorem recKeys_recSet_nodup {α : Type} (m : Rec α) (k : String) (v : α)
    (h : (recKeys m).Nodup) : (recKeys (recSet m k v)).Nodup := by
  rw [recKeys_recSet_eq]
  by_cases hk : k ∈ recKeys m
  · rw [if_pos hk]
    exact h
  · rw [if_neg hk]
    refine List.Nodup.append h (List.nodup_singleton k) ?_
    intro x hx hx2
    rw [List.mem_singleton.mp hx2] at hx
    exact hk hx

theorem recSet_append_of_not_mem {α : Type} (m : Rec α) (k : String) (v : α)
    (h : k ∉ recKeys m) : recSet m k v = m ++ [(k, v)] := by
  unfold recSet
  rw [if_neg (fun ha => h ((any_keys_iff m k).mp ha))]

theorem keys_foldl_recSet_tag {α : Type} (tag : Row → String) (g : Rec α → Row → α) :
    ∀ (dist : List Row) (fm : Rec α) (f : String),
      f ∈ recKeys (dist.foldl (fun fm r => recSet fm (tag r) (g fm r)) fm) →
      f ∈ recKeys fm ∨ ∃ r ∈ dist, tag r = f := by
  intro dist
  induction dist with
  | nil => exact fun fm f h => Or.inl h
  | cons r rest ih =>
    intro fm f h
    rw [List.foldl_cons] at h
    rcases ih _ f h with h2 | h2
    · rcases (mem_recKeys_recSet _ _ _ _).mp h2 with h3 | h3
      · exact Or.inl h3
      · exact Or.inr ⟨r, List.mem_cons_self _ _, h3.symm⟩
    · rcases h2 with ⟨r', hr', htag⟩
      exact Or.inr ⟨r', List.mem_cons_of_mem _ hr', htag⟩

theorem nodup_foldl_recSet_tag {α : Type} (tag : Row → String) (g : Rec α → Row → α) :
    ∀ (dist : List Row) (fm : Rec α), (recKeys fm).Nodup →
      (recKeys (dist.foldl (fun fm r => recSet fm (tag r) (g fm r)) fm)).Nodup := by
  intro dist
  induction dist with
  | nil => exact fun fm h => h
  | cons r rest ih =>
    intro fm h
    rw [List.foldl_cons]
    exact ih _ (recKeys_recSet_nodup _ _ _ h)

theorem keys_epsFold_tag {α : Type} (tag : Row → String) (g : Rec α → Row → α)
    (table : String → List Row) :
    ∀ (eps : List String) (fm : Rec α) (f : String),
      f ∈ recKeys (eps.foldl (fun fm ep =>
        (table ep).foldl (fun fm r => recSet fm (tag r) (g fm r)) fm) fm) →
      f ∈ recKeys fm ∨ ∃ ep ∈ eps, ∃ r ∈ table ep, tag r = f := by
  intro eps
  induction eps with
  | nil => exact fun fm f h => Or.inl h
  | cons ep rest ih =>
    intro fm f h
    rw [List.foldl_cons] at h
    rcases ih _ f h with h2 | h2
    · rcases keys_foldl_recSet_tag tag g (table ep) fm f h2 with h3 | h3
      · exact Or.inl h3
      · rcases h3 with ⟨r, hr, htag⟩
        exact Or.inr ⟨ep, List.mem_cons_self _ _, r, hr, htag⟩
    · rcases h2 with ⟨ep', hep', r, hr, htag⟩
      exact Or.inr ⟨ep', List.mem_cons_of_mem _ hep', r, hr, htag⟩

theorem nodup_epsFold_tag {α : Type} (tag : Row → String) (g : Rec α → Row → α)
    (table : String → List Row) :
    ∀ (eps : List String) (fm : Rec α), (recKeys fm).Nodup →
      (recKeys (eps.foldl (fun fm ep =>
        (table ep).foldl (fun fm r => recSet fm (tag r) (g fm r)) fm) fm)).Nodup := by
  intro eps
  induction eps with
  | nil => exact fun fm h => h
  | cons ep rest ih =>
    intro fm h
    rw [List.foldl_cons]
    exact ih _ (nodup_foldl_recSet_tag tag g (table ep) fm h)

theorem foldl_recSet_get_notmem {α : Type} (f : String → α) :
    ∀ (ks : List String) (base : Rec α) (k : String), k ∉ ks →
      recGet (ks.foldl (fun row k => recSet row k (f k)) base) k = recGet base k := by
  intro ks
  induction ks with
  | nil => exact fun base k _ => rfl
  | cons k0 rest ih =>
    intro base k hk
    rw [List.foldl_cons, ih _ k (fun h => hk (List.mem_cons_of_mem _ h)),
      recGet_recSet_ne _ _ _ _ (fun h => hk (by rw [h]; exact List.mem_cons_self _ _))]

theorem foldl_recSet_get_mem {α : Type} (f : String → α) :
    ∀ (ks : List String) (base : Rec α) (k : String), ks.Nodup → k ∈ ks →
      recGet (ks.foldl (fun row k => recSet row k (f k)) base) k = some (f k) := by
  intro ks
  induction ks with
  | nil => intro base k _ hk; exact absurd hk (List.not_mem_nil k)
  | cons k0 rest ih =>
    intro base k hnd hk
    rw [List.foldl_cons]
    rcases List.mem_cons.mp hk with rfl | hk2
    · rw [foldl_recSet_get_notmem f rest _ k (List.nodup_cons.mp hnd).1,
        recGet_recSet_self]
    · exact ih _ k (List.nodup_cons.mp hnd).2 hk2

theorem foldl_add_eq_sum (g : String → ℚ) :
    ∀ (ks : List String) (a : ℚ), ks.foldl (fun s k => s + g k) a = a + (ks.map g).sum := by
  intro ks
  induction ks with
  | nil => intro a; simp
  | cons k rest ih =>
    intro a
    rw [List.foldl_cons, ih (a + g k), List.map_cons, List.sum_cons]
    ring

theorem distRatioMap_eq_map (field : String) :
    ∀ (dist : List Row) (m0 : Rec ℚ),
      (∀ r ∈ dist, rowTag field r ∉ recKeys m0) →
      (dist.map (rowTag field)).Nodup →
      dist.foldl (fun m r => recSet m (rowTag field r) (rowRatio r)) m0 =
        m0 ++ dist.map (fun r => (rowTag field r, rowRatio r)) := by
  intro dist
  induction dist with
  | nil => intro m0 _ _; simp
  | cons r rest ih =>
    intro m0 hfresh hnd
    rw [List.foldl_cons,
      recSet_append_of_not_mem m0 _ _ (hfresh r (List.mem_cons_self _ _)),
      ih (m0 ++ [(rowTag field r, rowRatio r)]) ?_ ?_]
    · rw [List.map_cons, List.append_assoc]
      rfl
    · intro x hx hmem
      unfold recKeys at hmem
      rw [List.map_append] at hmem
      rcases List.mem_append.mp hmem with h2 | h2
      · exact hfresh x (List.mem_cons_of_mem _ hx) h2
      · have hxr : rowTag field x = rowTag field r := by simpa using h2
        rw [List.map_cons, List.nodup_cons] at hnd
        exact hnd.1 (hxr ▸ List.mem_map.mpr ⟨x, hx, rfl⟩)
    · rw [List.map_cons, List.nodup_cons] at hnd
      exact hnd.2

theorem recGet_map_tag (field : String) :
    ∀ (dist : List Row) (r0 : Row), r0 ∈ dist →
      (dist.map (rowTag field)).Nodup →
      recGet (dist.map (fun r => (rowTag field r, rowRatio r))) (rowTag field r0) =
        some (rowRatio r0) := by
  intro dist
  induction dist with
  | nil => intro r0 h; exact absurd h (List.not_mem_nil r0)
  | cons r rest ih =>
    intro r0 h0 hnd
    rw [List.map_cons, List.nodup_cons] at hnd
    rcases List.mem_cons.mp h0 with rfl | h0
    · unfold recGet
      rw [List.map_cons, List.find?_cons_of_pos _ (by simp)]
      rfl
    · have hne : rowTag field r ≠ rowTag field r0 := by
        intro he
        exact hnd.1 (he ▸ List.mem_map.mpr ⟨r0, h0, rfl⟩)
      unfold recGet
      rw [List.map_cons, List.find?_cons_of_neg _ (by simpa using hne)]
      exact ih r0 h0 hnd.2

theorem sum_map_filter_of_zero (g : String → ℚ) (p : String → Bool) :
    ∀ ks : List String, (∀ k ∈ ks, p k = false → g k = 0) →
      ((ks.filter p).map g).sum = (ks.map g).sum := by
  intro ks
  induction ks with
  | nil => intro _; rfl
  | cons k rest ih =>
    intro h
    rw [List.filter_cons]
    by_cases hp : p k
    · rw [if_pos hp, List.map_cons, List.map_cons, List.sum_cons, List.sum_cons,
        ih (fun x hx => h x (List.mem_cons_of_mem _ hx))]
    · rw [if_neg hp, List.map_cons, List.sum_cons,
        h k (List.mem_cons_self _ _) (Bool.eq_false_iff.mpr hp),
        ih (fun x hx => h x (List.mem_cons_of_mem _ hx))]
      ring

theorem sum_over_keys_le (dist : List Row) (field : String) (ks : List String)
    (hksN : ks.Nodup) (hdN : (dist.map (rowTag field)).Nodup)
    (hnn : ∀ r ∈ dist, 0 ≤ rowRatio r) :
    (ks.map (fun k =>
      (recGet (dist.map (fun r => (rowTag field r, rowRatio r))) k).getD 0)).sum ≤
      (dist.map rowRatio).sum := by
  set g : String → ℚ := fun k =>
    (recGet (dist.map (fun r => (rowTag field r, rowRatio r))) k).getD 0 with hg
  set p : String → Bool := fun k => decide (k ∈ dist.map (rowTag field)) with hp
  have hzero : ∀ k ∈ ks, p k = false → g k = 0 := by
    intro k hk hpk
    have hnotmem : k ∉ dist.map (rowTag field) := by
      intro hmem
      rw [hp] at hpk
      simp [hmem] at hpk
    have hnone : recGet (dist.map (fun r => (rowTag field r, rowRatio r))) k = none := by
      apply recGet_eq_none_of_not_mem
      intro hmem
      apply hnotmem
      unfold recKeys at hmem
      rw [List.map_map] at hmem
      simpa using hmem
    rw [hg]
    simp [hnone]
  rw [← sum_map_filter_of_zero g p ks hzero]
  have hfN : (ks.filter p).Nodup := hksN.filter p
  have hsub : (ks.filter p) ⊆ dist.map (rowTag field) := by
    intro k hk
    have h2 := (List.mem_filter.mp hk).2
    rw [hp] at h2
    simpa using h2
  obtain ⟨l', hperm, hsl⟩ := hfN.subperm hsub
  have h1 : ((ks.filter p).map g).sum = (l'.map g).sum := ((hperm.map g).sum_eq).symm
  have h2 : (l'.map g).sum ≤ ((dist.map (rowTag field)).map g).sum := by
    apply List.Sublist.sum_le_sum (hsl.map g)
    intro x hx
    rcases List.mem_map.mp hx with ⟨t, ht, rfl⟩
    rcases List.mem_map.mp ht with ⟨r, hr, rfl⟩
    rw [hg]
    dsimp only
    rw [recGet_map_tag field dist r hr hdN, Option.getD_some]
    exact hnn r hr
  have h3 : ((dist.map (rowTag field)).map g).sum = (dist.map rowRatio).sum := by
    rw [List.map_map]
    apply congrArg List.sum
    apply List.map_congr_left
    intro r hr
    show g (rowTag field r) = rowRatio r
    rw [hg]
    dsimp only
    rw [recGet_map_tag field dist r hr hdN, Option.getD_some]
  rw [h1, ← h3]
  exact h2

theorem distCompareData_func_reduce (tablesByEp : Rec TableMap) (eps : List String)
    (kind : DistKind) (topN : ℚ)
    (hk : isEmoKind kind = false)
    (hne : ¬eps.isEmpty = true)
    (hany : (eps.any fun ep =>
      decide ((epTable tablesByEp ep (distFuncTableKey kind)).length > 0)) = true) :
    (distCompareData tablesByEp eps kind topN).keys =
      ((List.insertionSort tagScoreGe
        ((funcMeanMap tablesByEp (distFuncTableKey kind) eps).map
          (fun p => (p.1, p.2.foldl (· + ·) 0 / max 1 (p.2.length : ℚ))))).take
        (clampTopKeys topN)).map (fun p => p.1) ++ ["other"] ∧
    (distCompareData tablesByEp eps kind topN).rows =
      eps.map (funcRowFor tablesByEp (distFuncTableKey kind)
        (((List.insertionSort tagScoreGe
          ((funcMeanMap tablesByEp (distFuncTableKey kind) eps).map
            (fun p => (p.1, p.2.foldl (· + ·) 0 / max 1 (p.2.length : ℚ))))).take
          (clampTopKeys topN)).map (fun p => p.1))) := by
  unfold distCompareData
  rw [if_neg hne, if_neg (by simp [hk])]
  dsimp only
  rw [if_neg (by simp [hany])]
  exact ⟨rfl, rfl⟩

theorem funcRowFor_other (tablesByEp : Rec TableMap) (funcKey : String)
    (topKeys : List String) (ep : String) :
    ∃ q, getCell (funcRowFor tablesByEp funcKey topKeys ep) "other" =
        some (CellVal.num q) ∧ 0 ≤ q := by
  unfold funcRowFor
  dsimp only
  refine ⟨max 0 (1 - topKeys.foldl (fun s k => s + cellNumOr0 (getCell
      (topKeys.foldl (fun row k => recSet row k (CellVal.num
        ((recGet (distRatioMap "func" (epTable tablesByEp ep funcKey)) k).getD 0)))
        [("episode", CellVal.str ("第" ++ ep ++ "集")), ("ep", CellVal.str ep)]) k)) 0),
    ?_, le_max_left _ _⟩
  rw [getCell_eq_recGet]
  exact recGet_recSet_self _ _ _

/-- C7: In open-vocabulary mode every output row's synthetic `other` value
is `max(0, 1 - sumTop) ≥ 0`; and for every selected episode whose
function-distribution table has pairwise-distinct tags, non-negative
ratios summing to 1, and (across the selection) no tag literally named
`other`, that episode's named-category ratios plus `other` sum to exactly
1. -/
theorem distCompare_other_bounds (tablesByEp : Rec TableMap) (eps : List String)
    (kind : DistKind) (topN : ℚ) (hk : isEmoKind kind = false) :
    (∀ row ∈ (distCompareData tablesByEp eps kind topN).rows,
      ∃ q, getCell row "other" = some (CellVal.num q) ∧ 0 ≤ q) ∧
    (∀ i, i < eps.length →
      ((epTable tablesByEp (eps.getD i "") (distFuncTableKey kind)).map (rowTag "func")).Nodup →
      (∀ r ∈ epTable tablesByEp (eps.getD i "") (distFuncTableKey kind), 0 ≤ rowRatio r) →
      ((epTable tablesByEp (eps.getD i "") (distFuncTableKey kind)).map rowRatio).sum = 1 →
      (∀ ep' ∈ eps, ∀ r ∈ epTable tablesByEp ep' (distFuncTableKey kind),
        rowTag "func" r ≠ "other") →
      rowKeySum (distCompareData tablesByEp eps kind topN).keys.dropLast
          ((distCompareData tablesByEp eps kind topN).rows.getD i []) +
        safeNumber (getCell ((distCompareData tablesByEp eps kind topN).rows.getD i [])
          "other") = 1) := by
  constructor
  · intro row hrow
    by_cases hne : eps.isEmpty
    · unfold distCompareData at hrow
      rw [if_pos hne] at hrow
      exact absurd hrow (by simp [emptyDistResult])
    · by_cases hany : (eps.any fun ep =>
        decide ((epTable tablesByEp ep (distFuncTableKey kind)).length > 0)) = true
      · obtain ⟨hkeys, hrows⟩ := distCompareData_func_reduce tablesByEp eps kind topN hk hne hany
        rw [hrows] at hrow
        rcases List.mem_map.mp hrow with ⟨ep, hep, rfl⟩
        exact funcRowFor_other _ _ _ _
      · unfold distCompareData at hrow
        rw [if_neg hne, if_neg (by simp [hk])] at hrow
        dsimp only at hrow
        rw [if_pos (by simpa using hany)] at hrow
        exact absurd hrow (by simp [emptyDistResult])
  · intro i hi hnodup hnn hsum hnoother
    have hepmem : eps.getD i "" ∈ eps := by
      rw [List.getD_eq_getElem eps "" hi]
      exact List.getElem_mem _
    have hdne : epTable tablesByEp (eps.getD i "") (distFuncTableKey kind) ≠ [] := by
      intro h0
      rw [h0] at hsum
      simp at hsum
    have hne : ¬eps.isEmpty = true := by
      intro h
      rw [List.isEmpty_iff] at h
      rw [h] at hi
      exact absurd hi (by simp)
    have hany : (eps.any fun ep' =>
        decide ((epTable tablesByEp ep' (distFuncTableKey kind)).length > 0)) = true := by
      rw [List.any_eq_true]
      exact ⟨eps.getD i "", hepmem, by simpa using List.length_pos.mpr hdne⟩
    obtain ⟨hkeys, hrows⟩ := distCompareData_func_reduce tablesByEp eps kind topN hk hne hany
    have hFSfst : ((funcMeanMap tablesByEp (distFuncTableKey kind) eps).map
        (fun p => (p.1, p.2.foldl (· + ·) 0 / max 1 (p.2.length : ℚ)))).map
        (fun p => p.1) = recKeys (funcMeanMap tablesByEp (distFuncTableKey kind) eps) := by
      rw [List.map_map]
      rfl
    have hMMnodup : (recKeys (funcMeanMap tablesByEp (distFuncTableKey kind) eps)).Nodup := by
      exact nodup_epsFold_tag (rowTag "func")
        (fun fm r => ((recGet fm (rowTag "func" r)).getD []) ++ [rowRatio r])
        (fun ep' => epTable tablesByEp ep' (distFuncTableKey kind)) eps [] (by simp [recKeys])
    have hsortperm := List.perm_insertionSort tagScoreGe
      ((funcMeanMap tablesByEp (distFuncTableKey kind) eps).map
        (fun p => (p.1, p.2.foldl (· + ·) 0 / max 1 (p.2.length : ℚ))))
    have htKnodup : (((List.insertionSort tagScoreGe
        ((funcMeanMap tablesByEp (distFuncTableKey kind) eps).map
          (fun p => (p.1, p.2.foldl (· + ·) 0 / max 1 (p.2.length : ℚ))))).take
        (clampTopKeys topN)).map (fun p => p.1)).Nodup := by
      rw [List.map_take]
      refine List.Sublist.nodup (List.take_sublist _ _) ?_
      rw [(hsortperm.map (fun p => p.1)).nodup_iff, hFSfst]
      exact hMMnodup
    have htKsub : ∀ f ∈ ((List.insertionSort tagScoreGe
        ((funcMeanMap tablesByEp (distFuncTableKey kind) eps).map
          (fun p => (p.1, p.2.foldl (· + ·) 0 / max 1 (p.2.length : ℚ))))).take
        (clampTopKeys topN)).map (fun p => p.1),
        ∃ ep' ∈ eps, ∃ r ∈ epTable tablesByEp ep' (distFuncTableKey kind),
          rowTag "func" r = f := by
      intro f hf
      rcases List.mem_map.mp hf with ⟨pq, hpq, rfl⟩
      have hpq2 := List.take_subset _ _ hpq
      have hpq3 := hsortperm.mem_iff.mp hpq2
      have hkey : pq.1 ∈ recKeys (funcMeanMap tablesByEp (distFuncTableKey kind) eps) := by
        rw [← hFSfst]
        exact List.mem_map.mpr ⟨pq, hpq3, rfl⟩
      rcases keys_epsFold_tag (rowTag "func")
          (fun fm r => ((recGet fm (rowTag "func" r)).getD []) ++ [rowRatio r])
          (fun ep' => epTable tablesByEp ep' (distFuncTableKey kind)) eps [] pq.1 hkey with
        h | h
      · exact absurd h (by simp [recKeys])
      · exact h
    have hother_notin : "other" ∉ ((List.insertionSort tagScoreGe
        ((funcMeanMap tablesByEp (distFuncTableKey kind) eps).map
          (fun p => (p.1, p.2.foldl (· + ·) 0 / max 1 (p.2.length : ℚ))))).take
        (clampTopKeys topN)).map (fun p => p.1) := by
      intro h
      rcases htKsub "other" h with ⟨ep', hep', r, hr, htag⟩
      exact hnoother ep' hep' r hr htag
    have hrowi : (distCompareData tablesByEp eps kind topN).rows.getD i [] =
        funcRowFor tablesByEp (distFuncTableKey kind)
          (((List.insertionSort tagScoreGe
            ((funcMeanMap tablesByEp (distFuncTableKey kind) eps).map
              (fun p => (p.1, p.2.foldl (· + ·) 0 / max 1 (p.2.length : ℚ))))).take
            (clampTopKeys topN)).map (fun p => p.1)) (eps.getD i "") := by
      rw [hrows, List.getD_eq_getElem _ _ (by rw [List.length_map]; exact hi),
        List.getElem_map, ← List.getD_eq_getElem eps "" hi]
    have hkdrop : (distCompareData tablesByEp eps kind topN).keys.dropLast =
        ((List.insertionSort tagScoreGe
          ((funcMeanMap tablesByEp (distFuncTableKey kind) eps).map
            (fun p => (p.1, p.2.foldl (· + ·) 0 / max 1 (p.2.length : ℚ))))).take
          (clampTopKeys topN)).map (fun p => p.1) := by
      rw [hkeys]
      exact List.dropLast_concat
    rw [hkdrop, hrowi]
    unfold funcRowFor
    dsimp only
    set tK := ((List.insertionSort tagScoreGe
      ((funcMeanMap tablesByEp (distFuncTableKey kind) eps).map
        (fun p => (p.1, p.2.foldl (· + ·) 0 / max 1 (p.2.length : ℚ))))).take
      (clampTopKeys topN)).map (fun p => p.1) with htK
    set M := distRatioMap "func"
      (epTable tablesByEp (eps.getD i "") (distFuncTableKey kind)) with hM
    set ROW := tK.foldl (fun row k => recSet row k (CellVal.num ((recGet M k).getD 0)))
      [("episode", CellVal.str ("第" ++ eps.getD i "" ++ "集")),
       ("ep", CellVal.str (eps.getD i ""))] with hROW
    set SUMTOP := tK.foldl (fun s k => s + cellNumOr0 (getCell ROW k)) 0 with hSUMTOP
    have h1 : safeNumber (getCell (recSet ROW "other" (CellVal.num (max 0 (1 - SUMTOP))))
        "other") = max 0 (1 - SUMTOP) := by
      rw [getCell_eq_recGet, recGet_recSet_self]
      rfl
    have hread : ∀ k ∈ tK, getCell (recSet ROW "other" (CellVal.num (max 0 (1 - SUMTOP)))) k =
        some (CellVal.num ((recGet M k).getD 0)) := by
      intro k hk
      rw [getCell_eq_recGet,
        recGet_recSet_ne _ _ _ _ (fun he => hother_notin (by rw [← he]; exact hk)), hROW]
      exact foldl_recSet_get_mem _ tK _ k htKnodup hk
    have h2 : rowKeySum tK (recSet ROW "other" (CellVal.num (max 0 (1 - SUMTOP)))) =
        (tK.map (fun k => (recGet M k).getD 0)).sum := by
      unfold rowKeySum
      apply congrArg List.sum
      apply List.map_congr_left
      intro k hk
      rw [hread k hk]
      rfl
    have h3 : SUMTOP = (tK.map (fun k => (recGet M k).getD 0)).sum := by
      rw [hSUMTOP, foldl_add_eq_sum (fun k => cellNumOr0 (getCell ROW k)) tK 0, zero_add]
      apply congrArg List.sum
      apply List.map_congr_left
      intro k hk
      rw [getCell_eq_recGet, hROW, foldl_recSet_get_mem _ tK _ k htKnodup hk]
      rfl
    have hle1 : (tK.map (fun k => (recGet M k).getD 0)).sum ≤ 1 := by
      have hMform : M = (epTable tablesByEp (eps.getD i "") (distFuncTableKey kind)).map
          (fun r => (rowTag "func" r, rowRatio r)) := by
        rw [hM]
        unfold distRatioMap
        rw [distRatioMap_eq_map "func" _ [] (by intro r _ h; exact absurd h (List.not_mem_nil _))
          hnodup]
        rfl
      rw [hMform]
      calc ((tK.map (fun k => (recGet ((epTable tablesByEp (eps.getD i "")
            (distFuncTableKey kind)).map (fun r => (rowTag "func" r, rowRatio r))) k).getD 0)).sum)
          ≤ ((epTable tablesByEp (eps.getD i "") (distFuncTableKey kind)).map rowRatio).sum :=
            sum_over_keys_le _ "func" tK htKnodup hnodup hnn
        _ = 1 := hsum
    rw [h2, h1, h3]
    rw [max_eq_right (by linarith)]
    ring

/-- Witness for C7 on a one-episode selection with a well-formed table. -/
theorem distCompare_other_bounds_witness :
    (∀ row ∈ (distCompareData oneEpisodeFuncTables ["1"] DistKind.func_danmaku 6).rows,
      ∃ q, getCell row "other" = some (CellVal.num q) ∧ 0 ≤ q) ∧
    rowKeySum (distCompareData oneEpisodeFuncTables ["1"] DistKind.func_danmaku 6).keys.dropLast
        ((distCompareData oneEpisodeFuncTables ["1"] DistKind.func_danmaku 6).rows.getD 0 []) +
      safeNumber (getCell
        ((distCompareData oneEpisodeFuncTables ["1"] DistKind.func_danmaku 6).rows.getD 0 [])
        "other") = 1 :=
  ⟨(distCompare_other_bounds oneEpisodeFuncTables ["1"] DistKind.func_danmaku 6 rfl).1,
   (distCompare_other_bounds oneEpisodeFuncTables ["1"] DistKind.func_danmaku 6 rfl).2 0
     (by decide) (by with_unfolding_all decide) (by with_unfolding_all decide)
     (by with_unfolding_all decide) (by with_unfolding_all decide)⟩

/-- C7's unit-sum half fails as stated: episode "1"'s input ratios sum to 1
(`2 + (-1)`), but its named-category ratios plus `other` sum to 2, because
the negative-ratio tag is pushed out of the top categories and
`other = max(0, 1-2) = 0` cannot compensate.  (`other ≥ 0` itself holds
unconditionally.) -/
theorem distCompare_unit_sum_counterexample :
    ((epTable adversarialFuncTables "1" "danmaku_func_dist").map rowRatio).sum = 1 ∧
    rowKeySum (distCompareData adversarialFuncTables ["1", "2"]
        DistKind.func_danmaku 2).keys.dropLast
        ((distCompareData adversarialFuncTables ["1", "2"]
          DistKind.func_danmaku 2).rows.getD 0 []) +
      safeNumber (getCell ((distCompareData adversarialFuncTables ["1", "2"]
        DistKind.func_danmaku 2).rows.getD 0 []) "other") ≠ 1 := by
  with_unfolding_all decide
